import Mathlib

/-!
Verification of the SmugDups duplicate-resolution core.

This file shallowly embeds the duplicate-detection, quality-scoring and
relocation machinery of the SmugDups code base:

* `core/models.py` (`DuplicatePhoto`, `get_quality_score`, `get_date_comparison`),
* `core/duplicate_finder.py` (`_find_duplicate_groups`, `_apply_default_selection`),
* `operations/smugmug_copy_operations.py` (`copy_image_to_album`,
  `_safe_copy_only`, `_copy_via_collect_multiple_formats`,
  `_make_collect_request`, `_verify_image_in_album`, the dead move/delete
  variants `_move_via_moveimages_multiple_formats` and
  `_copy_then_delete_original`),
* `operations/smugmug_album_operations.py` (`find_or_create_review_album`),
* `operations/enhanced_photo_copy_move.py` (`process_duplicates_for_review`),
* `gui/duplicate_widget.py` (the photo-selection logic of
  `move_selected_to_review_action`).

Modelling conventions:

* The remote SmugMug HTTP API is an external collaborator.  It is modelled as
  a `Gateway`: a bundle of response functions indexed by a call counter, so
  responses may change over time (the remote state may change between calls).
  Every operation runs in the monad `M` that threads the call counter and
  records the sequence of issued API calls, so theorems can speak about what
  was called and in what order.
* Python timestamp strings (`date_taken`, `date_uploaded`) are parsed by
  `parse_date` via the external `datetime` library; the embedding abstracts a
  timestamp field to the result of that parse, an `Option Int` of epoch
  seconds (`none` = missing or unparseable).
* Python exceptions raised by remote calls are modelled by `Except.error`
  responses from the gateway; each `try/except` of the source becomes an
  explicit match on that value at the same place the handler sits.
* `print` statements, log text and on-screen feedback are not modelled.
-/

namespace SmugDups

/-- Result of `DuplicatePhoto.get_date_comparison` (`core/models.py`):
only the fields consumed by scoring and selection are kept
(`has_both_dates`, `difference_days`, `status`); the remaining keys of the
Python dict are display-only strings. -/
structure DateComparison where
  has_both_dates : Bool
  difference_days : Int
  status : String
  deriving DecidableEq

/-- `DuplicatePhoto` from `core/models.py`.  `size` is the byte size
(non-negative), `keep` the mutable selection flag.  Timestamps are the parsed
values (see module docstring); GPS coordinates are rationals standing in for
the Python floats (only their presence is ever used by the embedded code). -/
structure DuplicatePhoto where
  image_id : String
  filename : String
  album_name : String
  album_id : String
  md5_hash : String
  url : String
  size : Nat
  date_uploaded : Option Int
  thumbnail_url : String := ""
  keep : Bool := false
  title : String := ""
  caption : String := ""
  keywords : String := ""
  date_taken : Option Int := none
  latitude : Option ℚ := none
  longitude : Option ℚ := none
  altitude : Option ℚ := none
  deriving DecidableEq

/-- Python's `str.strip()`: drop leading and trailing whitespace
(character-list form of `String.trim`, kept executable down to the kernel). -/
def pyStrip (s : String) : String :=
  String.mk (((s.data.dropWhile Char.isWhitespace).reverse.dropWhile
    Char.isWhitespace).reverse)

/-- `has_title`: `bool(self.title and self.title.strip())`. -/
def DuplicatePhoto.has_title (p : DuplicatePhoto) : Bool := pyStrip p.title != ""

/-- `has_caption`: `bool(self.caption and self.caption.strip())`. -/
def DuplicatePhoto.has_caption (p : DuplicatePhoto) : Bool := pyStrip p.caption != ""

/-- `has_keywords`: `bool(self.keywords and self.keywords.strip())`. -/
def DuplicatePhoto.has_keywords (p : DuplicatePhoto) : Bool := pyStrip p.keywords != ""

/-- `has_date_taken`: presence of a date-taken value (the source tests the raw
string for non-emptiness; under the parsed-timestamp abstraction this is
`isSome`). -/
def DuplicatePhoto.has_date_taken (p : DuplicatePhoto) : Bool := p.date_taken.isSome

/-- `has_location`: latitude and longitude both present. -/
def DuplicatePhoto.has_location (p : DuplicatePhoto) : Bool :=
  p.latitude.isSome && p.longitude.isSome

/-- `get_date_comparison` from `core/models.py`, restricted to the fields used
by scoring.  Python's `timedelta` normalises `diff = uploaded - taken` into
`days` (floor division by 86400) and `seconds` in `[0, 86400)`; `hours` is
`seconds // 3600`.  The bucket thresholds follow the source exactly. -/
def DuplicatePhoto.getDateComparison (p : DuplicatePhoto) : DateComparison :=
  match p.date_taken, p.date_uploaded with
  | some tk, some up =>
    let diff : Int := up - tk
    let days : Int := Int.fdiv diff 86400
    let hours : Int := Int.fdiv (Int.fmod diff 86400) 3600
    if days = 0 then
      if hours = 0 then ⟨true, days, "immediate"⟩
      else ⟨true, days, "same_day"⟩
    else if days = 1 then ⟨true, days, "recent"⟩
    else if days < 7 then ⟨true, days, "recent"⟩
    else if days < 30 then ⟨true, days, "delayed"⟩
    else if days < 365 then ⟨true, days, "very_delayed"⟩
    else ⟨true, days, "archived"⟩
  | _, _ => ⟨false, 0, "unknown"⟩

/-- `get_quality_score` from `core/models.py`: size tier bonus, metadata
richness bonuses, and the upload-timing bonus. -/
def DuplicatePhoto.getQualityScore (p : DuplicatePhoto) : Nat :=
  let sizeBonus : Nat :=
    if p.size > 5 * 1024 * 1024 then 3
    else if p.size > 1 * 1024 * 1024 then 2
    else if p.size > 500 * 1024 then 1
    else 0
  let metaBonus : Nat :=
    (if p.has_title then 2 else 0) + (if p.has_caption then 2 else 0) +
    (if p.has_keywords then 1 else 0) + (if p.has_date_taken then 1 else 0) +
    (if p.has_location then 1 else 0)
  let dc := p.getDateComparison
  let dateBonus : Nat :=
    if dc.has_both_dates then
      (if dc.status = "immediate" ∨ dc.status = "same_day" then 3
       else if dc.status = "recent" then 1
       else 0)
    else 0
  sizeBonus + metaBonus + dateBonus

/-- The sort key `(score, size)` used by `_apply_default_selection`
(`core/duplicate_finder.py`, `key=lambda x: (x[0], x[2].size)`). -/
def scoreKey (p : DuplicatePhoto) : Nat × Nat := (p.getQualityScore, p.size)

/-- Strict lexicographic order on sort keys. -/
def keyLt (a b : Nat × Nat) : Prop := a.1 < b.1 ∨ (a.1 = b.1 ∧ a.2 < b.2)

instance (a b : Nat × Nat) : Decidable (keyLt a b) := by
  unfold keyLt; infer_instance

/-- Reflexive lexicographic order on sort keys. -/
def keyLe (a b : Nat × Nat) : Prop := a.1 < b.1 ∨ (a.1 = b.1 ∧ a.2 ≤ b.2)

/-- Accumulating pass that finds the first index attaining the maximal
`(score, size)` key.  `_apply_default_selection` sorts the scored duplicates by
`(score, size)` descending with Python's stable sort and takes the head; with
a stable descending sort the head is exactly the first element attaining the
maximal key, which this fold computes directly. -/
def bestAux : List (Nat × DuplicatePhoto) → Nat × (Nat × Nat) → Nat × (Nat × Nat)
  | [], acc => acc
  | (i, p) :: rest, acc =>
      bestAux rest (if keyLt acc.2 (scoreKey p) then (i, scoreKey p) else acc)

/-- Index of the member `_apply_default_selection` keeps (`none` for an empty
group, where the source returns without selecting). -/
def bestChoice : List DuplicatePhoto → Option Nat
  | [] => none
  | p :: t => some (bestAux (List.enumFrom 1 t) (0, scoreKey p)).1

/-- `_apply_default_selection` from `core/duplicate_finder.py`: score every
member, clear every `keep`, and set `keep = true` on the single best-scoring
member (ties broken by larger size, then by earlier position via sort
stability). -/
def applyDefaultSelection (duplicates : List DuplicatePhoto) : List DuplicatePhoto :=
  match bestChoice duplicates with
  | none => duplicates
  | some j => duplicates.enum.map (fun ip => { ip.2 with keep := ip.1 == j })

/-- A row of `api.get_album_images` as consumed by the duplicate finder
(`image_data` dict in `_find_duplicate_groups`); same fields as
`DuplicatePhoto` minus the selection flag. -/
structure ImageData where
  image_id : String
  filename : String
  album_name : String
  album_id : String
  md5_hash : String
  url : String
  size : Nat
  date_uploaded : Option Int
  thumbnail_url : String := ""
  title : String := ""
  caption : String := ""
  keywords : String := ""
  date_taken : Option Int := none
  latitude : Option ℚ := none
  longitude : Option ℚ := none
  altitude : Option ℚ := none
  deriving DecidableEq

/-- The `DuplicatePhoto(...)` construction inside `_find_duplicate_groups`:
a field-by-field copy with `keep` left at its default `False`. -/
def mkDuplicatePhoto (d : ImageData) : DuplicatePhoto :=
  { image_id := d.image_id, filename := d.filename, album_name := d.album_name,
    album_id := d.album_id, md5_hash := d.md5_hash, url := d.url, size := d.size,
    date_uploaded := d.date_uploaded, thumbnail_url := d.thumbnail_url,
    keep := false, title := d.title, caption := d.caption,
    keywords := d.keywords, date_taken := d.date_taken,
    latitude := d.latitude, longitude := d.longitude, altitude := d.altitude }

/-- Appending one image under its hash key, modelling
`md5_groups[md5_hash].append(image)` on a Python dict (insertion-ordered
association list; the first matching key is updated, a new key is appended). -/
def insertHash : List (String × List ImageData) → String → ImageData →
    List (String × List ImageData)
  | [], h, img => [(h, [img])]
  | (k, l) :: rest, h, img =>
      if k = h then (k, l ++ [img]) :: rest
      else (k, l) :: insertHash rest h img

/-- The `md5_groups` dict built by `_find_duplicate_groups`: images with an
empty hash are skipped (`if md5_hash:`), the rest are appended under their
hash in input order. -/
def md5Groups (images : List ImageData) : List (String × List ImageData) :=
  images.foldl
    (fun m img => if img.md5_hash = "" then m else insertHash m img.md5_hash img) []

/-- `_find_duplicate_groups` from `core/duplicate_finder.py`: for each hash
with more than one image, build the `DuplicatePhoto` list in input order and
apply the default selection. -/
def findDuplicateGroups (all_images : List ImageData) : List (List DuplicatePhoto) :=
  (md5Groups all_images).filterMap (fun e =>
    if 1 < e.2.length then some (applyDefaultSelection (e.2.map mkDuplicatePhoto))
    else none)

/-- The nonempty hashes of the input in first-occurrence order (proof-side
characterisation of the Python dict's key order). -/
def hashOrder (images : List ImageData) : List String :=
  images.foldl
    (fun a img =>
      if img.md5_hash = "" then a
      else if img.md5_hash ∈ a then a else a ++ [img.md5_hash]) []

/-! ## Remote API gateway and call-logging monad -/

/-- The JSON request body of a `!collectimages` / `!moveimages` POST, one
constructor per request-shape variant tried by the source. -/
inductive PostBody where
  | collectArr (uri : String)
  | collectStr (uri : String)
  | moveImageArr (uri : String)
  | moveImageStr (uri : String)
  | moveMoveArr (uri : String)
  | moveMoveStr (uri : String)
  deriving DecidableEq

/-- The JSON body of a POST response, as far as `_make_collect_request` /
`_make_move_request` inspect it: presence of a `Response` key, `Code`
(default 0) and `Message` (default `"Unknown error"`). -/
structure JsonBody where
  hasResponse : Bool
  code : Nat
  message : String
  deriving DecidableEq

/-- A POST cycle outcome: an HTTP status with an optional parsed JSON body
(`none` = body was not JSON), or a raised exception from the HTTP library. -/
inductive HttpPost where
  | resp (status : Nat) (body : Option JsonBody)
  | exn (e : String)
  deriving DecidableEq

/-- `api.get_image_details` result fields used by the copy operations:
`FileName`, `Uri` and `Uris.Image` (absent dict entries become `""`, matching
the `.get(..., '')` accesses). -/
structure ImageDetails where
  fileName : String
  uri : String
  urisImage : String
  deriving DecidableEq

/-- `api.get_album_info` result fields used here (`name`, `id`, `url`). -/
structure AlbumInfo where
  name : String
  id : String
  url : String
  deriving DecidableEq

/-- A row of `api.get_album_images` as used by `_verify_image_in_album`. -/
structure AlbumImage where
  image_id : String
  filename : String
  album_name : String
  url : String
  deriving DecidableEq

/-- A row of `api.get_user_albums` as used by the review-album locator. -/
structure UserAlbum where
  name : String
  id : String
  url : String
  image_count : Nat
  deriving DecidableEq

/-- Album-creation POST outcome as far as `_create_album_working_method`
inspects it: a 2xx response whose body yields `Response.Album` with
`AlbumKey` / `Name` / `WebUri` / `UrlName` (possibly empty strings), or
anything else (non-2xx status, JSON decode error, or a raised exception), all
of which make the source return `None`. -/
inductive CreateAlbumResp where
  | ok (albumKey name webUri urlName : String)
  | failed
  deriving DecidableEq

/-- One logged remote interaction.  `sleep` entries record the
`time.sleep` pauses (in milliseconds) so pacing is visible in the log. -/
inductive ApiCall where
  | getImageDetails (imageId : String)
  | getAlbumInfo (albumKey : String)
  | getAlbumImages (albumKey : String)
  | getUserAlbums (user : String)
  | postCollect (albumKey : String) (body : PostBody)
  | postMove (albumKey : String) (body : PostBody)
  | createAlbum (name urlName : String)
  | deleteImage (imageId : String)
  | rawGet (url : String)
  | sleep (ms : Nat)
  deriving DecidableEq

/-- The external SmugMug API: one response function per capability, indexed
by the current event counter so the remote state may change between calls.
`Except.error` models a Python exception raised by the call. -/
structure Gateway where
  getImageDetails : Nat → String → Except String (Option ImageDetails)
  getAlbumInfo : Nat → String → Except String (Option AlbumInfo)
  getAlbumImages : Nat → String → Except String (List AlbumImage)
  getUserAlbums : Nat → String → Except String (List UserAlbum)
  postCollect : Nat → String → PostBody → HttpPost
  postMove : Nat → String → PostBody → HttpPost
  createAlbum : Nat → String → String → CreateAlbumResp
  deleteImageWithDetails : Nat → String → Except String (Bool × String)
  rawGet : Nat → String → Except String Nat

/-- Call-logging monad: a computation takes the current event counter and
returns its value together with the list of calls it issued (the counter
advances by one per logged call). -/
def M (α : Type) : Type := Nat → α × List ApiCall

instance : Monad M where
  pure a := fun _ => (a, [])
  bind x f := fun t =>
    ((f (x t).1 (t + (x t).2.length)).1,
     (x t).2 ++ (f (x t).1 (t + (x t).2.length)).2)

theorem M.bind_apply {α β : Type} (x : M α) (f : α → M β) (t : Nat) :
    (x >>= f) t =
      ((f (x t).1 (t + (x t).2.length)).1,
       (x t).2 ++ (f (x t).1 (t + (x t).2.length)).2) := rfl

theorem M.pure_apply {α : Type} (a : α) (t : Nat) : (pure a : M α) t = (a, []) := rfl

/-- Issue `api.get_image_details(image_id)`. -/
def callGetImageDetails (gw : Gateway) (imageId : String) :
    M (Except String (Option ImageDetails)) :=
  fun t => (gw.getImageDetails t imageId, [ApiCall.getImageDetails imageId])

/-- Issue `api.get_album_info(album_key)`. -/
def callGetAlbumInfo (gw : Gateway) (albumKey : String) :
    M (Except String (Option AlbumInfo)) :=
  fun t => (gw.getAlbumInfo t albumKey, [ApiCall.getAlbumInfo albumKey])

/-- Issue `api.get_album_images(album_key)`. -/
def callGetAlbumImages (gw : Gateway) (albumKey : String) :
    M (Except String (List AlbumImage)) :=
  fun t => (gw.getAlbumImages t albumKey, [ApiCall.getAlbumImages albumKey])

/-- Issue `api.get_user_albums(username)`. -/
def callGetUserAlbums (gw : Gateway) (user : String) :
    M (Except String (List UserAlbum)) :=
  fun t => (gw.getUserAlbums t user, [ApiCall.getUserAlbums user])

/-- POST to `album/{key}!collectimages`. -/
def callPostCollect (gw : Gateway) (albumKey : String) (body : PostBody) : M HttpPost :=
  fun t => (gw.postCollect t albumKey body, [ApiCall.postCollect albumKey body])

/-- POST to `album/{key}!moveimages`. -/
def callPostMove (gw : Gateway) (albumKey : String) (body : PostBody) : M HttpPost :=
  fun t => (gw.postMove t albumKey body, [ApiCall.postMove albumKey body])

/-- POST to `folder/user/{username}!albums` creating an album. -/
def callCreateAlbum (gw : Gateway) (name urlName : String) : M CreateAlbumResp :=
  fun t => (gw.createAlbum t name urlName, [ApiCall.createAlbum name urlName])

/-- Issue `api.delete_image_with_details(image_id)`. -/
def callDeleteImage (gw : Gateway) (imageId : String) :
    M (Except String (Bool × String)) :=
  fun t => (gw.deleteImageWithDetails t imageId, [ApiCall.deleteImage imageId])

/-- A raw authenticated GET (the debug probes of `_debug_api_response`);
the response is abstracted to its status code. -/
def callRawGet (gw : Gateway) (url : String) : M (Except String Nat) :=
  fun t => (gw.rawGet t url, [ApiCall.rawGet url])

/-- `time.sleep(sec)`, logged in milliseconds. -/
def sleepCall (ms : Nat) : M Unit := fun _ => ((), [ApiCall.sleep ms])

/-! ## `operations/smugmug_copy_operations.py` -/

/-- The response interpretation shared by `_make_collect_request` and
`_make_move_request`: status 200/201 is success with no body; otherwise a JSON
body with a `Response` key and `Code != 400` is treated as success; any other
JSON body is failure-with-data; a non-JSON body or a raised request exception
is failure-with-`None`. -/
def postRequestLogic : HttpPost → Bool × Option JsonBody
  | .exn _ => (false, none)
  | .resp status body =>
    if status = 200 ∨ status = 201 then (true, none)
    else
      match body with
      | none => (false, none)
      | some b =>
        if b.hasResponse ∧ b.code ≠ 400 then (true, some b)
        else (false, some b)

/-- `_make_collect_request`: one POST to `!collectimages`, interpreted by
`postRequestLogic`. -/
def makeCollectRequest (gw : Gateway) (albumKey : String) (body : PostBody) :
    M (Bool × Option JsonBody) := do
  let r ← callPostCollect gw albumKey body
  pure (postRequestLogic r)

/-- `_make_move_request`: one POST to `!moveimages`. -/
def makeMoveRequest (gw : Gateway) (albumKey : String) (body : PostBody) :
    M (Bool × Option JsonBody) := do
  let r ← callPostMove gw albumKey body
  pure (postRequestLogic r)

/-- `_handle_collect_error` / `_handle_move_error`: `False` (stop) for the
fatal codes `4, 5, 15, 401, 403, 404`, `True` (keep trying) for `400` and
for any unknown code. -/
def handleRequestError (b : JsonBody) : Bool :=
  if b.code = 4 ∨ b.code = 5 ∨ b.code = 15 ∨ b.code = 401 ∨ b.code = 403 ∨ b.code = 404
  then false
  else true

/-- The URI candidate list built by both multi-format methods: the two
synthesised forms, the two forms from the image details (empty ones dropped),
then full-URL copies of every candidate starting with `/`. -/
def uriFormats (imageId : String) (det : ImageDetails) : List String :=
  let image_uri_formats : List String :=
    ["/api/v2/image/" ++ imageId, "/api/v2/image/" ++ imageId ++ "-0",
     det.uri, det.urisImage]
  let clean_uris := image_uri_formats.filter (fun u => u != "")
  let full_url_formats :=
    (clean_uris.filter (fun u => u.startsWith "/")).map
      (fun u => "https://api.smugmug.com" ++ u)
  clean_uris ++ full_url_formats

/-- The three data formats per URI of the effective (second)
`_copy_via_collect_multiple_formats`: array form, string form, and the
explicit-f-string form (identical to the string form). -/
def collectDataFormats (uri : String) : List PostBody :=
  [PostBody.collectArr uri, PostBody.collectStr uri, PostBody.collectStr uri]

/-- The four data formats per URI of `_move_via_moveimages_multiple_formats`. -/
def moveDataFormats (uri : String) : List PostBody :=
  [PostBody.moveImageArr uri, PostBody.moveImageStr uri,
   PostBody.moveMoveArr uri, PostBody.moveMoveStr uri]

/-- Inner data-format loop of `_copy_via_collect_multiple_formats` (second,
effective definition).  `some` = an early `return` of the whole method,
`none` = fall through to the next URI.  On a non-success response with a JSON
body: a continuable code skips the pause (`continue`), codes 4/5/15 return a
fatal error, any other fatal code just moves on after the pause. -/
def collectInner (gw : Gateway) (albumKey : String) (uriIdx : Nat) :
    List (Nat × PostBody) → M (Option (Bool × String))
  | [] => pure none
  | (j, d) :: rest => do
    let (succ, rdata) ← makeCollectRequest gw albumKey d
    if succ then
      pure (some (true, "Image copied via CollectUris URI format " ++
        toString (uriIdx + 1) ++ ", data format " ++ toString (j + 1)))
    else
      match rdata with
      | some b =>
        if handleRequestError b then collectInner gw albumKey uriIdx rest
        else if b.code = 4 ∨ b.code = 5 ∨ b.code = 15 then
          pure (some (false, "Fatal error (Code " ++ toString b.code ++ "): " ++ b.message))
        else do
          sleepCall 200
          collectInner gw albumKey uriIdx rest
      | none => do
          sleepCall 200
          collectInner gw albumKey uriIdx rest

/-- Outer URI loop of `_copy_via_collect_multiple_formats`, pausing 0.5 s
between URI candidates. -/
def collectOuter (gw : Gateway) (albumKey : String) :
    List (Nat × String) → M (Option (Bool × String))
  | [] => pure none
  | (i, uri) :: rest => do
    let r ← collectInner gw albumKey i (collectDataFormats uri).enum
    match r with
    | some res => pure (some res)
    | none => do
        sleepCall 500
        collectOuter gw albumKey rest

/-- `_copy_via_collect_multiple_formats` (second, effective definition): try
every URI format with every data format against `!collectimages`. -/
def copyViaCollectMultipleFormats (gw : Gateway) (imageId albumKey : String)
    (det : ImageDetails) : M (Bool × String) := do
  let fmts := uriFormats imageId det
  let r ← collectOuter gw albumKey fmts.enum
  match r with
  | some res => pure res
  | none => pure (false, "All " ++ toString fmts.length ++ " URI formats failed")

/-- Inner data-format loop of `_move_via_moveimages_multiple_formats`
(mirrors `collectInner` with the move request and messages). -/
def moveInner (gw : Gateway) (albumKey : String) (uriIdx : Nat) :
    List (Nat × PostBody) → M (Option (Bool × String))
  | [] => pure none
  | (j, d) :: rest => do
    let (succ, rdata) ← makeMoveRequest gw albumKey d
    if succ then
      pure (some (true, "Image MOVED via moveimages URI format " ++
        toString (uriIdx + 1) ++ ", data format " ++ toString (j + 1)))
    else
      match rdata with
      | some b =>
        if handleRequestError b then moveInner gw albumKey uriIdx rest
        else if b.code = 4 ∨ b.code = 5 ∨ b.code = 15 then
          pure (some (false, "Fatal error (Code " ++ toString b.code ++ "): " ++ b.message))
        else do
          sleepCall 200
          moveInner gw albumKey uriIdx rest
      | none => do
          sleepCall 200
          moveInner gw albumKey uriIdx rest

/-- Outer URI loop of `_move_via_moveimages_multiple_formats`. -/
def moveOuter (gw : Gateway) (albumKey : String) :
    List (Nat × String) → M (Option (Bool × String))
  | [] => pure none
  | (i, uri) :: rest => do
    let r ← moveInner gw albumKey i (moveDataFormats uri).enum
    match r with
    | some res => pure (some res)
    | none => do
        sleepCall 500
        moveOuter gw albumKey rest

/-- `_move_via_moveimages_multiple_formats`.  Present in the source but never
invoked by `copy_image_to_album`; embedded so that theorems about the absence
of move calls are about a reachable capability. -/
def moveViaMoveimagesMultipleFormats (gw : Gateway) (imageId albumKey : String)
    (det : ImageDetails) : M (Bool × String) := do
  let fmts := uriFormats imageId det
  let r ← moveOuter gw albumKey fmts.enum
  match r with
  | some res => pure res
  | none => pure (false, "All " ++ toString fmts.length ++ " MOVE URI formats failed")

/-- `_verify_image_in_album`: one listing read of the target album.  A raised
listing exception or an empty/unretrievable listing is a failed verification;
on a miss the album info is fetched once for diagnostics before returning
`False`. -/
def verifyImageInAlbum (gw : Gateway) (imageId albumKey : String) : M Bool := do
  let r ← callGetAlbumImages gw albumKey
  match r with
  | .error _ => pure false
  | .ok imgs =>
    if imgs.isEmpty then pure false
    else if imgs.any (fun im => im.image_id == imageId) then pure true
    else do
      let _ ← callGetAlbumInfo gw albumKey
      pure false

/-- `_safe_copy_only`: collect-copy, wait 2 s, verify by re-listing; success
only when the verification finds the image. -/
def safeCopyOnly (gw : Gateway) (imageId albumKey : String) (det : ImageDetails) :
    M (Bool × String) := do
  let (succ, msg) ← copyViaCollectMultipleFormats gw imageId albumKey det
  if !succ then
    pure (false, "Copy step failed: " ++ msg)
  else do
    sleepCall 2000
    let ok ← verifyImageInAlbum gw imageId albumKey
    if !ok then
      pure (false, "Copy appeared successful but image not found in destination album")
    else
      pure (true, "Image safely copied to review album (original preserved due to SmugMug API bug)")

/-- `_copy_then_delete_original`: the abandoned copy-then-delete fallback.
Present in the source but never invoked by `copy_image_to_album`; embedded so
that theorems about the absence of delete calls are about a reachable
capability.  A raised delete exception reaches the method's own handler. -/
def copyThenDeleteOriginal (gw : Gateway) (imageId albumKey : String)
    (det : ImageDetails) : M (Bool × String) := do
  let (succ, msg) ← copyViaCollectMultipleFormats gw imageId albumKey det
  if !succ then
    pure (false, "Copy step failed: " ++ msg)
  else do
    sleepCall 2000
    let ok ← verifyImageInAlbum gw imageId albumKey
    if !ok then
      pure (false, "Copy appeared successful but image not found in destination album")
    else do
      let dr ← callDeleteImage gw imageId
      match dr with
      | .error e => pure (false, "Copy+delete error: " ++ e)
      | .ok (true, _) => do
        sleepCall 2000
        let still ← verifyImageInAlbum gw imageId albumKey
        if still then
          pure (true, "Image moved via verified copy+delete: " ++ msg)
        else
          pure (false, "Image disappeared from target album after delete - possible SmugMug bug")
      | .ok (false, dmsg) =>
        pure (true, "Image copied but original delete failed: " ++ dmsg)

/-- `_debug_api_response` (second, effective definition): two raw GET probes;
a raised first probe skips the second (the shared `try` catches it). -/
def debugApiResponse (gw : Gateway) (imageId albumKey : String) : M Unit := do
  let r ← callRawGet gw ("https://api.smugmug.com/api/v2/image/" ++ imageId)
  match r with
  | .error _ => pure ()
  | .ok _ => do
    let _ ← callRawGet gw ("https://api.smugmug.com/api/v2/album/" ++ albumKey)
    pure ()

/-- `_provide_enhanced_manual_instructions` (second, effective definition):
re-fetch names for the message; a raised fetch reaches the local handler.
Always a failure result. -/
def provideEnhancedManualInstructions (gw : Gateway) (imageId albumKey : String) :
    M (Bool × String) := do
  let rd ← callGetImageDetails gw imageId
  match rd with
  | .error e => pure (false, "Could not generate enhanced manual instructions: " ++ e)
  | .ok detOpt => do
    let ra ← callGetAlbumInfo gw albumKey
    match ra with
    | .error e => pure (false, "Could not generate enhanced manual instructions: " ++ e)
    | .ok infoOpt =>
      let imageName := match detOpt with
        | some d => if d.fileName != "" then d.fileName else "Image " ++ imageId
        | none => "Image " ++ imageId
      let albumName := match infoOpt with
        | some i => if i.name != "" then i.name else "Review Album"
        | none => "Review Album"
      pure (false, "All API copy methods failed - Manual copy needed: " ++
        imageName ++ " → " ++ albumName)

/-- `copy_image_to_album` v2.6 SAFE MODE: verify the image and album exist,
run `_safe_copy_only`, and on failure fall through to the debug probes and the
manual-instructions failure result.  A raised existence check reaches the
method's own handler. -/
def copyImageToAlbum (gw : Gateway) (imageId targetAlbumKey : String) :
    M (Bool × String) := do
  let rd ← callGetImageDetails gw imageId
  match rd with
  | .error e => pure (false, "Copy failed with exception: " ++ e)
  | .ok none => pure (false, "Image " ++ imageId ++ " not found or not accessible")
  | .ok (some det) => do
    let ra ← callGetAlbumInfo gw targetAlbumKey
    match ra with
    | .error e => pure (false, "Copy failed with exception: " ++ e)
    | .ok none => pure (false, "Album " ++ targetAlbumKey ++ " not found or not accessible")
    | .ok (some _) => do
      let (succ, msg) ← safeCopyOnly gw imageId targetAlbumKey det
      if succ then pure (true, msg)
      else do
        debugApiResponse gw imageId targetAlbumKey
        provideEnhancedManualInstructions gw imageId targetAlbumKey

/-! ## `operations/smugmug_album_operations.py` -/

/-- Python's substring test `sub in s` (for nonempty `sub`): `splitOn`
produces more than one piece exactly when the pattern occurs. -/
def strContains (s sub : String) : Bool := (s.splitOn sub).length != 1

/-- The review-album lookup result (`find_or_create_review_album` dict):
an existing album, a freshly created one, or the manual-creation fallback
(whose dict has `album_key = None` and carries the instructions). -/
inductive AlbumLookup where
  | found (album_key album_name web_url : String) (image_count : Nat)
  | created (album_key album_name web_url url_name : String)
  | manual (album_name instructions url_name : String)
  deriving DecidableEq

/-- Destination key of a usable lookup result (`manual` has none;
`""` mirrors its `album_key = None`). -/
def AlbumLookup.keyOf : AlbumLookup → String
  | .found k _ _ _ => k
  | .created k _ _ _ => k
  | .manual _ _ _ => ""

/-- `_find_existing_smugdups_album`: list the account's albums and return the
first whose lowercased name contains `smugdups`+`review` or
`duplicate`+`review`; a raised listing call is caught and yields `None`. -/
def findExistingSmugdupsAlbum (gw : Gateway) (username : String) :
    M (Option AlbumLookup) := do
  let r ← callGetUserAlbums gw username
  match r with
  | .error _ => pure none
  | .ok albums =>
    match albums.filter (fun a =>
        let n := a.name.toLower
        (strContains n "smugdups" && strContains n "review") ||
        (strContains n "duplicate" && strContains n "review")) with
    | [] => pure none
    | a :: _ => pure (some (AlbumLookup.found a.id a.name a.url a.image_count))

/-- `_create_album_working_method`: one creation POST; any non-2xx response,
malformed body, missing album key or raised exception yields `None`.  Empty
`Name`/`WebUri`/`UrlName` fields fall back as the `.get`/`or` defaults do. -/
def createAlbumWorkingMethod (gw : Gateway) (albumName urlName : String) :
    M (Option AlbumLookup) := do
  let r ← callCreateAlbum gw albumName urlName
  match r with
  | .ok key nm webUri urlNm =>
    if key != "" then
      pure (some (AlbumLookup.created key (if nm != "" then nm else albumName)
        (if webUri != "" then webUri else "https://smugmug.com/album/" ++ key)
        (if urlNm != "" then urlNm else urlName)))
    else pure none
  | .failed => pure none

/-- The instruction text of `_provide_manual_creation_instructions`
(apostrophes of the source text rendered as double quotes). -/
def manualCreationInstructions (albumName urlName : String) : String :=
  "MANUAL ALBUM CREATION REQUIRED:\n\n1. Go to SmugMug.com and log in\n" ++
  "2. Create a new album named: " ++ albumName ++ "\n" ++
  "3. Important: Set the URL name to: " ++ urlName ++ "\n" ++
  "4. Set privacy to \"Unlisted\" (recommended)\n" ++
  "5. Add description: \"SmugDups duplicate review album\"\n" ++
  "6. Save the album\n7. Re-run SmugDups to detect the new album\n\n" ++
  "The album will be automatically detected on the next scan.\n\n" ++
  "💡 TIP: The URL name format (" ++ urlName ++ ") ensures proper detection."

/-- `_create_new_review_album_working`: derive the dated name pair
(`datetime.now().strftime("%Y%m%d")` is passed in as `dateStamp`), try the
creation call, and fall back to the manual-creation instructions dict. -/
def createNewReviewAlbumWorking (gw : Gateway) (dateStamp : String) :
    M (Option AlbumLookup) := do
  let albumName := "SmugDups Review " ++ dateStamp
  let urlName := "SmugDups-review-" ++ dateStamp
  let r ← createAlbumWorkingMethod gw albumName urlName
  match r with
  | some info => pure (some info)
  | none =>
      pure (some (AlbumLookup.manual albumName
        (manualCreationInstructions albumName urlName) urlName))

/-- `find_or_create_review_album`: search first, then create-or-instruct.
(The source wraps the body in `try/except → None`, but every callee catches
its own exceptions, so the `None` branch is dead; `locator_isSome` below
proves it in the model.) -/
def findOrCreateReviewAlbum (gw : Gateway) (username dateStamp : String) :
    M (Option AlbumLookup) := do
  let ex ← findExistingSmugdupsAlbum gw username
  match ex with
  | some a => pure (some a)
  | none => createNewReviewAlbumWorking gw dateStamp

/-! ## `operations/enhanced_photo_copy_move.py` -/

/-- One `image_result` dict of `process_duplicates_for_review`. -/
structure ImageResult where
  image_id : String
  filename : String
  source_album : String
  success : Bool
  message : String
  deriving DecidableEq

/-- One `group_result` dict of `process_duplicates_for_review`. -/
structure GroupResult where
  group_number : Nat
  total_images : Nat
  successful_copies : Nat
  failed_copies : Nat
  image_results : List ImageResult
  deriving DecidableEq

/-- The final summary dict (`success = True` case).  `success_rate` is the
numeric percentage the source formats as `f"{rate:.1f}%"`. -/
structure RelocationSummary where
  review_album : AlbumLookup
  total_groups : Nat
  total_images : Nat
  successful_copies : Nat
  failed_copies : Nat
  success_rate : ℚ
  group_results : List GroupResult
  deriving DecidableEq

/-- The three possible returns of `process_duplicates_for_review`: the
(unreachable) `review_album is None` error dict, the manual-creation refusal
dict, and the completed summary. -/
inductive ProcessResult where
  | noAlbum
  | manualNeeded (error instructions suggested_album_name suggested_url_name : String)
  | done (s : RelocationSummary)
  deriving DecidableEq

/-- The per-photo loop of `process_duplicates_for_review` on one group:
returns `(successful, failed, image_results)`.  A photo with an empty
`image_id` is counted failed without any remote call and without an
`image_results` entry; otherwise the safe copy runs, one entry is recorded,
and the 1-second rate-limit pause follows. -/
def processGroupPhotos (gw : Gateway) (albumKey : String) :
    List DuplicatePhoto → M (Nat × Nat × List ImageResult)
  | [] => pure (0, 0, [])
  | p :: rest =>
    if p.image_id != "" then do
      let (succ, msg) ← copyImageToAlbum gw p.image_id albumKey
      sleepCall 1000
      let (s, f, rs) ← processGroupPhotos gw albumKey rest
      pure (if succ then s + 1 else s, if succ then f else f + 1,
        ({ image_id := p.image_id, filename := p.filename,
           source_album := p.album_name, success := succ, message := msg } : ImageResult) :: rs)
    else do
      let (s, f, rs) ← processGroupPhotos gw albumKey rest
      pure (s, f + 1, rs)

/-- The group loop of `process_duplicates_for_review`: accumulates
`(successful, failed, total_images, group_results)`; `n` is the 1-based
group counter. -/
def processGroups (gw : Gateway) (albumKey : String) :
    List (List DuplicatePhoto) → Nat → M (Nat × Nat × Nat × List GroupResult)
  | [], _ => pure (0, 0, 0, [])
  | g :: rest, n => do
    let (s, f, rs) ← processGroupPhotos gw albumKey g
    let (ts, tf, ti, grs) ← processGroups gw albumKey rest (n + 1)
    pure (s + ts, f + tf, g.length + ti,
      ({ group_number := n, total_images := g.length, successful_copies := s,
         failed_copies := f, image_results := rs } : GroupResult) :: grs)

/-- `process_duplicates_for_review`: set up the review album (refusing the
whole batch when only manual instructions are available), then drain every
group photo-by-photo and assemble the summary. -/
def processDuplicatesForReview (gw : Gateway)
    (duplicateGroups : List (List DuplicatePhoto)) (username dateStamp : String) :
    M ProcessResult := do
  let ra ← findOrCreateReviewAlbum gw username dateStamp
  match ra with
  | none => pure ProcessResult.noAlbum
  | some (AlbumLookup.manual nm instr urlNm) =>
      pure (ProcessResult.manualNeeded "Manual album creation required" instr nm urlNm)
  | some album => do
      let (s, f, ti, grs) ← processGroups gw album.keyOf duplicateGroups 1
      pure (ProcessResult.done
        { review_album := album, total_groups := duplicateGroups.length,
          total_images := ti, successful_copies := s, failed_copies := f,
          success_rate := if 0 < ti then ((s : ℚ) / (ti : ℚ)) * 100 else 0,
          group_results := grs })

/-! ## `gui/duplicate_widget.py` -/

/-- The photo-selection logic of `move_selected_to_review_action`: with
exactly one `keep`, move the non-kept members (stored order preserved); with
zero or several `keep` flags, move everything. -/
def photosToMove (duplicates : List DuplicatePhoto) : List DuplicatePhoto :=
  let selectedCount := (duplicates.filter (fun p => p.keep)).length
  if selectedCount = 0 then duplicates
  else if selectedCount = 1 then duplicates.filter (fun p => !p.keep)
  else duplicates

/-! ## Call classification and generic log lemmas -/

/-- Is this a `!moveimages` POST? -/
def isMoveCall : ApiCall → Bool
  | .postMove _ _ => true
  | _ => false

/-- Is this a delete call (`delete_image` / `delete_image_with_details`)? -/
def isDeleteCall : ApiCall → Bool
  | .deleteImage _ => true
  | _ => false

/-- Is this a `!collectimages` POST? -/
def isCollectCall : ApiCall → Bool
  | .postCollect _ _ => true
  | _ => false

/-- Is this an album-listing read (`get_album_images`)? -/
def isListingCall : ApiCall → Bool
  | .getAlbumImages _ => true
  | _ => false

/-- Any remote call that relocates or destroys a photo. -/
def isRelocationCall (c : ApiCall) : Bool :=
  isCollectCall c || isMoveCall c || isDeleteCall c

theorem M.mem_bind {α β : Type} {x : M α} {f : α → M β} {t : Nat} {c : ApiCall} :
    c ∈ ((x >>= f) t).2 ↔
      c ∈ (x t).2 ∨ c ∈ (f (x t).1 (t + (x t).2.length)).2 := by
  simp [M.bind_apply, List.mem_append]

theorem M.not_mem_pure {α : Type} {a : α} {t : Nat} {c : ApiCall} :
    c ∉ ((pure a : M α) t).2 := by
  simp [M.pure_apply]

/-! ## `_verify_image_in_album`: characterisation -/

/-- A run of the verification step returns `true` exactly when the listing
read succeeds and positively contains the image id. -/
theorem verify_true_iff (gw : Gateway) (imageId albumKey : String) (t : Nat) :
    (verifyImageInAlbum gw imageId albumKey t).1 = true ↔
      ∃ imgs, gw.getAlbumImages t albumKey = Except.ok imgs ∧
        ∃ im ∈ imgs, im.image_id = imageId := by
  unfold verifyImageInAlbum
  rcases h : gw.getAlbumImages t albumKey with e | imgs
  · simp [M.bind_apply, callGetAlbumImages, h, M.pure_apply]
  · simp only [M.bind_apply, callGetAlbumImages, h, M.pure_apply, ite_apply]
    by_cases he : imgs.isEmpty
    · have : imgs = [] := by simpa [List.isEmpty_iff] using he
      subst this
      simp [M.pure_apply]
    · by_cases ha : imgs.any (fun im => im.image_id == imageId) <;>
      · simp only [List.any_eq_true, beq_iff_eq] at ha
        simp [he, ha, M.bind_apply, callGetAlbumInfo, M.pure_apply, List.any_eq_true]

/-- Every call of a verification run is the one listing read or the
diagnostic album-info fetch. -/
theorem verify_shape (gw : Gateway) (imageId albumKey : String) (t : Nat) (c : ApiCall)
    (hc : c ∈ (verifyImageInAlbum gw imageId albumKey t).2) :
    c = ApiCall.getAlbumImages albumKey ∨ c = ApiCall.getAlbumInfo albumKey := by
  unfold verifyImageInAlbum at hc
  rcases h : gw.getAlbumImages t albumKey with e | imgs <;>
    simp only [M.bind_apply, callGetAlbumImages, h, M.pure_apply, ite_apply] at hc
  · simp at hc
    simp [hc]
  · by_cases he : imgs.isEmpty
    · simp [he, M.pure_apply] at hc
      simp [hc]
    · by_cases ha : imgs.any (fun im => im.image_id == imageId) <;>
        simp [he, ha, M.bind_apply, callGetAlbumInfo, M.pure_apply] at hc <;>
        tauto

/-- A verification run issues exactly one listing read. -/
theorem verify_one_listing (gw : Gateway) (imageId albumKey : String) (t : Nat) :
    ((verifyImageInAlbum gw imageId albumKey t).2.countP (fun c => isListingCall c)) = 1 := by
  unfold verifyImageInAlbum
  rcases h : gw.getAlbumImages t albumKey with e | imgs <;>
    simp only [M.bind_apply, callGetAlbumImages, h, M.pure_apply, ite_apply]
  · simp [List.countP_cons, isListingCall]
  · by_cases he : imgs.isEmpty
    · simp [he, M.pure_apply, List.countP_cons, isListingCall]
    · by_cases ha : imgs.any (fun im => im.image_id == imageId) <;>
        simp [he, ha, M.bind_apply, callGetAlbumInfo, M.pure_apply, List.countP_cons,
          isListingCall]

/-! ## Shape of the collect / move loops -/

/-- Calls that the `!collectimages` retry loops may issue. -/
def collectShape (key : String) (c : ApiCall) : Prop :=
  (∃ b, c = ApiCall.postCollect key b) ∨ c = ApiCall.sleep 200 ∨ c = ApiCall.sleep 500

/-- Calls that the `!moveimages` retry loops may issue. -/
def moveShape (key : String) (c : ApiCall) : Prop :=
  (∃ b, c = ApiCall.postMove key b) ∨ c = ApiCall.sleep 200 ∨ c = ApiCall.sleep 500

theorem collectInner_shape (gw : Gateway) (key : String) (i : Nat) :
    ∀ (ds : List (Nat × PostBody)) (t : Nat) (c : ApiCall),
      c ∈ (collectInner gw key i ds t).2 → collectShape key c := by
  intro ds
  induction ds with
  | nil =>
    intro t c hc
    simp [collectInner, M.pure_apply] at hc
  | cons hd rest ih =>
    obtain ⟨j, d⟩ := hd
    intro t c hc
    simp only [collectInner, M.bind_apply, M.pure_apply, makeCollectRequest,
      callPostCollect, sleepCall, ite_apply] at hc
    rcases hpr : postRequestLogic (gw.postCollect t key d) with ⟨succ, rdata⟩
    rw [hpr] at hc
    rcases succ with _ | _ <;> rcases rdata with _ | b
    · simp [M.bind_apply, M.pure_apply, sleepCall] at hc
      rcases hc with h | h | h
      · exact Or.inl ⟨d, h⟩
      · exact Or.inr (Or.inl h)
      · exact ih _ c h
    · by_cases hh : handleRequestError b
      · simp [hh, M.bind_apply, M.pure_apply, sleepCall] at hc
        rcases hc with h | h
        · exact Or.inl ⟨d, h⟩
        · exact ih _ c h
      · by_cases hcode : b.code = 4 ∨ b.code = 5 ∨ b.code = 15
        · simp [hh, hcode, M.bind_apply, M.pure_apply, sleepCall] at hc
          exact Or.inl ⟨d, hc⟩
        · simp [hh, hcode, M.bind_apply, M.pure_apply, sleepCall] at hc
          rcases hc with h | h | h
          · exact Or.inl ⟨d, h⟩
          · exact Or.inr (Or.inl h)
          · exact ih _ c h
    · simp [M.pure_apply] at hc
      exact Or.inl ⟨d, hc⟩
    · simp [M.pure_apply] at hc
      exact Or.inl ⟨d, hc⟩

theorem moveInner_shape (gw : Gateway) (key : String) (i : Nat) :
    ∀ (ds : List (Nat × PostBody)) (t : Nat) (c : ApiCall),
      c ∈ (moveInner gw key i ds t).2 → moveShape key c := by
  intro ds
  induction ds with
  | nil =>
    intro t c hc
    simp [moveInner, M.pure_apply] at hc
  | cons hd rest ih =>
    obtain ⟨j, d⟩ := hd
    intro t c hc
    simp only [moveInner, M.bind_apply, M.pure_apply, makeMoveRequest,
      callPostMove, sleepCall, ite_apply] at hc
    rcases hpr : postRequestLogic (gw.postMove t key d) with ⟨succ, rdata⟩
    rw [hpr] at hc
    rcases succ with _ | _ <;> rcases rdata with _ | b
    · simp [M.bind_apply, M.pure_apply, sleepCall] at hc
      rcases hc with h | h | h
      · exact Or.inl ⟨d, h⟩
      · exact Or.inr (Or.inl h)
      · exact ih _ c h
    · by_cases hh : handleRequestError b
      · simp [hh, M.bind_apply, M.pure_apply, sleepCall] at hc
        rcases hc with h | h
        · exact Or.inl ⟨d, h⟩
        · exact ih _ c h
      · by_cases hcode : b.code = 4 ∨ b.code = 5 ∨ b.code = 15
        · simp [hh, hcode, M.bind_apply, M.pure_apply, sleepCall] at hc
          exact Or.inl ⟨d, hc⟩
        · simp [hh, hcode, M.bind_apply, M.pure_apply, sleepCall] at hc
          rcases hc with h | h | h
          · exact Or.inl ⟨d, h⟩
          · exact Or.inr (Or.inl h)
          · exact ih _ c h
    · simp [M.pure_apply] at hc
      exact Or.inl ⟨d, hc⟩
    · simp [M.pure_apply] at hc
      exact Or.inl ⟨d, hc⟩

theorem collectOuter_shape (gw : Gateway) (key : String) :
    ∀ (us : List (Nat × String)) (t : Nat) (c : ApiCall),
      c ∈ (collectOuter gw key us t).2 → collectShape key c := by
  intro us
  induction us with
  | nil =>
    intro t c hc
    simp [collectOuter, M.pure_apply] at hc
  | cons hd rest ih =>
    obtain ⟨i, uri⟩ := hd
    intro t c hc
    simp only [collectOuter, M.bind_apply, M.pure_apply, sleepCall] at hc
    rcases hr : (collectInner gw key i (collectDataFormats uri).enum t) with ⟨r, l⟩
    rw [hr] at hc
    have hinner : ∀ c', c' ∈ l → collectShape key c' := by
      intro c' hc'
      have := collectInner_shape gw key i (collectDataFormats uri).enum t c'
      rw [hr] at this
      exact this hc'
    rcases r with _ | res
    · simp [M.bind_apply, M.pure_apply, sleepCall] at hc
      rcases hc with h | h | h
      · exact hinner c h
      · exact Or.inr (Or.inr h)
      · exact ih _ c h
    · simp [M.pure_apply] at hc
      exact hinner c hc

theorem moveOuter_shape (gw : Gateway) (key : String) :
    ∀ (us : List (Nat × String)) (t : Nat) (c : ApiCall),
      c ∈ (moveOuter gw key us t).2 → moveShape key c := by
  intro us
  induction us with
  | nil =>
    intro t c hc
    simp [moveOuter, M.pure_apply] at hc
  | cons hd rest ih =>
    obtain ⟨i, uri⟩ := hd
    intro t c hc
    simp only [moveOuter, M.bind_apply, M.pure_apply, sleepCall] at hc
    rcases hr : (moveInner gw key i (moveDataFormats uri).enum t) with ⟨r, l⟩
    rw [hr] at hc
    have hinner : ∀ c', c' ∈ l → moveShape key c' := by
      intro c' hc'
      have := moveInner_shape gw key i (moveDataFormats uri).enum t c'
      rw [hr] at this
      exact this hc'
    rcases r with _ | res
    · simp [M.bind_apply, M.pure_apply, sleepCall] at hc
      rcases hc with h | h | h
      · exact hinner c h
      · exact Or.inr (Or.inr h)
      · exact ih _ c h
    · simp [M.pure_apply] at hc
      exact hinner c hc

theorem copyViaCollect_shape (gw : Gateway) (imageId key : String) (det : ImageDetails)
    (t : Nat) (c : ApiCall)
    (hc : c ∈ (copyViaCollectMultipleFormats gw imageId key det t).2) :
    collectShape key c := by
  simp only [copyViaCollectMultipleFormats, M.bind_apply, M.pure_apply] at hc
  rcases hr : (collectOuter gw key (uriFormats imageId det).enum t) with ⟨r, l⟩
  rw [hr] at hc
  have houter : ∀ c', c' ∈ l → collectShape key c' := by
    intro c' hc'
    have := collectOuter_shape gw key (uriFormats imageId det).enum t c'
    rw [hr] at this
    exact this hc'
  rcases r with _ | res <;> simp [M.pure_apply] at hc <;> exact houter c hc

theorem moveVia_shape (gw : Gateway) (imageId key : String) (det : ImageDetails)
    (t : Nat) (c : ApiCall)
    (hc : c ∈ (moveViaMoveimagesMultipleFormats gw imageId key det t).2) :
    moveShape key c := by
  simp only [moveViaMoveimagesMultipleFormats, M.bind_apply, M.pure_apply] at hc
  rcases hr : (moveOuter gw key (uriFormats imageId det).enum t) with ⟨r, l⟩
  rw [hr] at hc
  have houter : ∀ c', c' ∈ l → moveShape key c' := by
    intro c' hc'
    have := moveOuter_shape gw key (uriFormats imageId det).enum t c'
    rw [hr] at this
    exact this hc'
  rcases r with _ | res <;> simp [M.pure_apply] at hc <;> exact houter c hc

/-! ## Shape of the safe-copy path -/

/-- Calls that `copy_image_to_album` (SAFE MODE) may issue: the two existence
checks, the collect loop, the pause, the verification reads, the debug probes
and the manual-instruction fetches.  Never a move, never a delete. -/
def copyCallShape (imageId key : String) (c : ApiCall) : Prop :=
  collectShape key c ∨ c = ApiCall.sleep 2000 ∨ c = ApiCall.getAlbumImages key ∨
    c = ApiCall.getAlbumInfo key ∨ c = ApiCall.getImageDetails imageId ∨
    (∃ u, c = ApiCall.rawGet u)

theorem safeCopyOnly_shape (gw : Gateway) (imageId key : String) (det : ImageDetails)
    (t : Nat) (c : ApiCall) (hc : c ∈ (safeCopyOnly gw imageId key det t).2) :
    collectShape key c ∨ c = ApiCall.sleep 2000 ∨ c = ApiCall.getAlbumImages key ∨
      c = ApiCall.getAlbumInfo key := by
  simp only [safeCopyOnly, M.bind_apply, M.pure_apply, sleepCall, ite_apply] at hc
  rcases hr : copyViaCollectMultipleFormats gw imageId key det t with ⟨⟨succ, msg⟩, l⟩
  rw [hr] at hc
  have hcv : ∀ c', c' ∈ l → collectShape key c' := by
    intro c' hc'
    have := copyViaCollect_shape gw imageId key det t c'
    rw [hr] at this
    exact this hc'
  rcases succ with _ | _
  · simp [M.pure_apply] at hc
    exact Or.inl (hcv c hc)
  · simp [M.bind_apply, M.pure_apply, sleepCall, ite_apply, apply_ite] at hc
    rcases hc with h | h | h
    · exact Or.inl (hcv c h)
    · exact Or.inr (Or.inl h)
    · rcases h with h | h
      · have := verify_shape gw imageId key _ c h
        tauto
      · by_cases hok : (verifyImageInAlbum gw imageId key (t + l.length + 1)).1 = false <;>
          simp [hok, M.pure_apply] at h

theorem debugApiResponse_shape (gw : Gateway) (imageId key : String) (t : Nat)
    (c : ApiCall) (hc : c ∈ (debugApiResponse gw imageId key t).2) :
    ∃ u, c = ApiCall.rawGet u := by
  simp only [debugApiResponse, M.bind_apply, M.pure_apply, callRawGet] at hc
  rcases hr : gw.rawGet t ("https://api.smugmug.com/api/v2/image/" ++ imageId) with e | s <;>
    rw [hr] at hc <;> simp [M.bind_apply, M.pure_apply, callRawGet] at hc
  · exact ⟨_, hc⟩
  · rcases hc with h | h
    · exact ⟨_, h⟩
    · exact ⟨_, h⟩

theorem provideManual_shape (gw : Gateway) (imageId key : String) (t : Nat)
    (c : ApiCall) (hc : c ∈ (provideEnhancedManualInstructions gw imageId key t).2) :
    c = ApiCall.getImageDetails imageId ∨ c = ApiCall.getAlbumInfo key := by
  simp only [provideEnhancedManualInstructions, M.bind_apply, M.pure_apply,
    callGetImageDetails, callGetAlbumInfo] at hc
  rcases hr : gw.getImageDetails t imageId with e | dOpt <;> rw [hr] at hc
  · simp [M.pure_apply] at hc
    simp [hc]
  · simp only [M.bind_apply, M.pure_apply, callGetAlbumInfo, List.length_singleton] at hc
    rcases hr2 : gw.getAlbumInfo (t + 1) key with e2 | iOpt <;> rw [hr2] at hc <;>
      simp [M.bind_apply, M.pure_apply] at hc <;> tauto

/-- The result of `_provide_enhanced_manual_instructions` is always a failure
result. -/
theorem provideManual_false (gw : Gateway) (imageId key : String) (t : Nat) :
    (provideEnhancedManualInstructions gw imageId key t).1.1 = false := by
  simp only [provideEnhancedManualInstructions, M.bind_apply, M.pure_apply,
    callGetImageDetails, callGetAlbumInfo, List.length_singleton]
  rcases hr : gw.getImageDetails t imageId with e | dOpt
  · rfl
  · simp only [M.bind_apply, M.pure_apply, callGetAlbumInfo, List.length_singleton]
    rcases hr2 : gw.getAlbumInfo (t + 1) key with e2 | iOpt <;> rfl

theorem copyImageToAlbum_shape (gw : Gateway) (imageId key : String) (t : Nat)
    (c : ApiCall) (hc : c ∈ (copyImageToAlbum gw imageId key t).2) :
    copyCallShape imageId key c := by
  unfold copyCallShape
  simp only [copyImageToAlbum, M.bind_apply, M.pure_apply, callGetImageDetails,
    List.length_singleton] at hc
  rcases hr : gw.getImageDetails t imageId with e | dOpt <;> rw [hr] at hc
  · simp [M.pure_apply] at hc
    tauto
  · rcases dOpt with _ | det
    · simp [M.pure_apply] at hc
      tauto
    · simp only [M.bind_apply, M.pure_apply, callGetAlbumInfo, List.length_singleton] at hc
      rcases hr2 : gw.getAlbumInfo (t + 1) key with e2 | iOpt <;> rw [hr2] at hc
      · simp [M.pure_apply] at hc
        tauto
      · rcases iOpt with _ | info
        · simp [M.pure_apply] at hc
          tauto
        · simp only [M.bind_apply, M.pure_apply] at hc
          rcases hs : safeCopyOnly gw imageId key det (t + 1 + 1) with ⟨⟨succ, msg⟩, ls⟩
          rw [hs] at hc
          have hss : ∀ c', c' ∈ ls → collectShape key c' ∨ c' = ApiCall.sleep 2000 ∨
              c' = ApiCall.getAlbumImages key ∨ c' = ApiCall.getAlbumInfo key := by
            intro c' hc'
            have := safeCopyOnly_shape gw imageId key det (t + 1 + 1) c'
            rw [hs] at this
            exact this hc'
          rcases succ with _ | _
          · simp [M.bind_apply, M.pure_apply] at hc
            rcases hc with h | h | h | h
            · tauto
            · tauto
            · have := hss c h
              tauto
            · rcases h with hd | hm
              · have := debugApiResponse_shape gw imageId key _ c hd
                tauto
              · have := provideManual_shape gw imageId key _ c hm
                tauto
          · simp [M.bind_apply, M.pure_apply] at hc
            rcases hc with h | h | h
            · tauto
            · tauto
            · have := hss c h
              tauto

/-! ## Counting corollaries for the safe-copy path -/

theorem copyImageToAlbum_no_move (gw : Gateway) (imageId key : String) (t : Nat) :
    ((copyImageToAlbum gw imageId key t).2.countP (fun c => isMoveCall c)) = 0 := by
  refine List.countP_eq_zero.mpr ?_
  intro c hc
  have h := copyImageToAlbum_shape gw imageId key t c hc
  simp only [copyCallShape, collectShape] at h
  rcases h with (⟨b, rfl⟩ | rfl | rfl) | rfl | rfl | rfl | rfl | ⟨u, rfl⟩ <;>
    simp [isMoveCall]

theorem copyImageToAlbum_no_delete (gw : Gateway) (imageId key : String) (t : Nat) :
    ((copyImageToAlbum gw imageId key t).2.countP (fun c => isDeleteCall c)) = 0 := by
  refine List.countP_eq_zero.mpr ?_
  intro c hc
  have h := copyImageToAlbum_shape gw imageId key t c hc
  simp only [copyCallShape, collectShape] at h
  rcases h with (⟨b, rfl⟩ | rfl | rfl) | rfl | rfl | rfl | rfl | ⟨u, rfl⟩ <;>
    simp [isDeleteCall]

theorem collect_no_listing (gw : Gateway) (imageId key : String) (det : ImageDetails)
    (t : Nat) :
    ((copyViaCollectMultipleFormats gw imageId key det t).2.countP
      (fun c => isListingCall c)) = 0 := by
  refine List.countP_eq_zero.mpr ?_
  intro c hc
  have h := copyViaCollect_shape gw imageId key det t c hc
  simp only [collectShape] at h
  rcases h with ⟨b, rfl⟩ | rfl | rfl <;> simp [isListingCall]

theorem debug_no_listing (gw : Gateway) (imageId key : String) (t : Nat) :
    ((debugApiResponse gw imageId key t).2.countP (fun c => isListingCall c)) = 0 := by
  refine List.countP_eq_zero.mpr ?_
  intro c hc
  obtain ⟨u, rfl⟩ := debugApiResponse_shape gw imageId key t c hc
  simp [isListingCall]

theorem manual_no_listing (gw : Gateway) (imageId key : String) (t : Nat) :
    ((provideEnhancedManualInstructions gw imageId key t).2.countP
      (fun c => isListingCall c)) = 0 := by
  refine List.countP_eq_zero.mpr ?_
  intro c hc
  rcases provideManual_shape gw imageId key t c hc with rfl | rfl <;> simp [isListingCall]

/-- `_safe_copy_only` reads the destination listing at most once (exactly once
when the collect step succeeded, never otherwise): there is no retry loop
around the verification read. -/
theorem safeCopyOnly_listing_le_one (gw : Gateway) (imageId key : String)
    (det : ImageDetails) (t : Nat) :
    ((safeCopyOnly gw imageId key det t).2.countP (fun c => isListingCall c)) ≤ 1 := by
  simp only [safeCopyOnly, M.bind_apply, M.pure_apply, sleepCall, ite_apply]
  rcases hr : copyViaCollectMultipleFormats gw imageId key det t with ⟨⟨succ, msg⟩, l⟩
  have hl : l.countP (fun c => isListingCall c) = 0 := by
    have := collect_no_listing gw imageId key det t
    rw [hr] at this
    exact this
  rcases succ with _ | _
  · simp [M.pure_apply, List.countP_append, hl]
  · have hv := verify_one_listing gw imageId key (t + l.length + 1)
    simp only [isListingCall] at hl hv
    by_cases hok : (verifyImageInAlbum gw imageId key (t + l.length + 1)).1 = false <;>
      simp [hok, M.bind_apply, M.pure_apply, sleepCall, List.countP_append,
        List.countP_cons, hl, hv, isListingCall]

theorem copyImageToAlbum_listing_le_one (gw : Gateway) (imageId key : String) (t : Nat) :
    ((copyImageToAlbum gw imageId key t).2.countP (fun c => isListingCall c)) ≤ 1 := by
  simp only [copyImageToAlbum, M.bind_apply, M.pure_apply, callGetImageDetails,
    List.length_singleton]
  rcases hr : gw.getImageDetails t imageId with e | dOpt
  · simp [M.pure_apply, isListingCall, List.countP_cons]
  · rcases dOpt with _ | det
    · simp [M.pure_apply, isListingCall, List.countP_cons]
    · simp only [M.bind_apply, M.pure_apply, callGetAlbumInfo, List.length_singleton]
      rcases hr2 : gw.getAlbumInfo (t + 1) key with e2 | iOpt
      · simp [M.pure_apply, isListingCall, List.countP_cons]
      · rcases iOpt with _ | info
        · simp [M.pure_apply, isListingCall, List.countP_cons]
        · simp only [M.bind_apply, M.pure_apply]
          rcases hs : safeCopyOnly gw imageId key det (t + 1 + 1) with ⟨⟨succ, msg⟩, ls⟩
          have hls : ls.countP (fun c => isListingCall c) ≤ 1 := by
            have := safeCopyOnly_listing_le_one gw imageId key det (t + 1 + 1)
            rw [hs] at this
            exact this
          have hdm := debug_no_listing gw imageId key
          have hmn := manual_no_listing gw imageId key
          simp only [isListingCall] at hls hdm hmn
          rcases succ with _ | _ <;>
            simp [M.bind_apply, M.pure_apply, List.countP_append, List.countP_cons,
              isListingCall, hdm, hmn] <;>
            omega

/-! ## Success of the safe-copy path implies a verified fresh listing -/

/-- The collect POST issued at event time `t` was accepted
(`_make_collect_request` returned success). -/
def collectCallSucceeded (gw : Gateway) (t : Nat) (key : String) (b : PostBody) : Prop :=
  (postRequestLogic (gw.postCollect t key b)).1 = true

theorem collectInner_success (gw : Gateway) (key : String) (i : Nat) :
    ∀ (ds : List (Nat × PostBody)) (t : Nat) (r : Bool × String),
      (collectInner gw key i ds t).1 = some r → r.1 = true →
      ∃ (k : Nat) (b : PostBody),
        (collectInner gw key i ds t).2.length = k + 1 ∧
        collectCallSucceeded gw (t + k) key b := by
  intro ds
  induction ds with
  | nil =>
    intro t r h1 h2
    simp [collectInner, M.pure_apply] at h1
  | cons hd rest ih =>
    obtain ⟨j, d⟩ := hd
    intro t r h1 h2
    simp only [collectInner, M.bind_apply, M.pure_apply, makeCollectRequest,
      callPostCollect, sleepCall, ite_apply, List.append_nil, List.length_cons,
      List.length_nil] at h1 ⊢
    rcases hpr : postRequestLogic (gw.postCollect t key d) with ⟨succ, rdata⟩
    rw [hpr] at h1
    rcases succ with _ | _
    · rcases rdata with _ | b
      · simp [M.bind_apply, M.pure_apply, sleepCall] at h1
        obtain ⟨k, b', hlen, hsucc⟩ := ih _ r h1 h2
        refine ⟨k + 2, b', ?_, ?_⟩
        · simp [M.bind_apply, M.pure_apply, sleepCall]
          omega
        · have harith : t + 1 + 1 + k = t + (k + 2) := by omega
          rwa [harith] at hsucc
      · by_cases hh : handleRequestError b
        · simp [hh, M.bind_apply, M.pure_apply, sleepCall] at h1
          obtain ⟨k, b', hlen, hsucc⟩ := ih _ r h1 h2
          refine ⟨k + 1, b', ?_, ?_⟩
          · simp [hh, M.bind_apply, M.pure_apply, sleepCall]
            omega
          · have harith : t + 1 + k = t + (k + 1) := by omega
            rwa [harith] at hsucc
        · by_cases hcode : b.code = 4 ∨ b.code = 5 ∨ b.code = 15
          · simp [hh, hcode, M.pure_apply] at h1
            rw [← h1] at h2
            simp at h2
          · simp [hh, hcode, M.bind_apply, M.pure_apply, sleepCall] at h1
            obtain ⟨k, b', hlen, hsucc⟩ := ih _ r h1 h2
            refine ⟨k + 2, b', ?_, ?_⟩
            · simp [hh, hcode, M.bind_apply, M.pure_apply, sleepCall]
              omega
            · have harith : t + 1 + 1 + k = t + (k + 2) := by omega
              rwa [harith] at hsucc
    · refine ⟨0, d, by simp [M.pure_apply], ?_⟩
      simp [collectCallSucceeded, hpr]

theorem collectOuter_success (gw : Gateway) (key : String) :
    ∀ (us : List (Nat × String)) (t : Nat) (r : Bool × String),
      (collectOuter gw key us t).1 = some r → r.1 = true →
      ∃ (k : Nat) (b : PostBody),
        (collectOuter gw key us t).2.length = k + 1 ∧
        collectCallSucceeded gw (t + k) key b := by
  intro us
  induction us with
  | nil =>
    intro t r h1 h2
    simp [collectOuter, M.pure_apply] at h1
  | cons hd rest ih =>
    obtain ⟨i, uri⟩ := hd
    intro t r h1 h2
    simp only [collectOuter, M.bind_apply, M.pure_apply, sleepCall,
      List.append_nil, List.length_cons, List.length_nil] at h1 ⊢
    rcases hr : collectInner gw key i (collectDataFormats uri).enum t with ⟨ri, li⟩
    rw [hr] at h1
    rcases ri with _ | res
    · simp [M.bind_apply, M.pure_apply, sleepCall] at h1
      obtain ⟨k, b, hlen, hsucc⟩ := ih _ r h1 h2
      refine ⟨li.length + 1 + k, b, ?_, ?_⟩
      · simp [M.bind_apply, M.pure_apply, sleepCall]
        omega
      · have harith : t + li.length + 1 + k = t + (li.length + 1 + k) := by omega
        rwa [harith] at hsucc
    · simp only [M.pure_apply] at h1
      have hres : res = r := by simpa using h1
      subst hres
      have hin := collectInner_success gw key i (collectDataFormats uri).enum t res
        (by rw [hr]) h2
      rw [hr] at hin
      simpa using hin

theorem copyViaCollect_success (gw : Gateway) (imageId key : String)
    (det : ImageDetails) (t : Nat)
    (h : (copyViaCollectMultipleFormats gw imageId key det t).1.1 = true) :
    ∃ (k : Nat) (b : PostBody),
      (copyViaCollectMultipleFormats gw imageId key det t).2.length = k + 1 ∧
      collectCallSucceeded gw (t + k) key b := by
  simp only [copyViaCollectMultipleFormats, M.bind_apply, M.pure_apply] at h ⊢
  rcases hr : collectOuter gw key (uriFormats imageId det).enum t with ⟨ro, lo⟩
  rw [hr] at h
  rcases ro with _ | res
  · simp [M.pure_apply] at h
  · simp only [M.pure_apply] at h ⊢
    have := collectOuter_success gw key (uriFormats imageId det).enum t res
      (by rw [hr]) h
    rw [hr] at this
    simpa using this

theorem safeCopyOnly_success (gw : Gateway) (imageId key : String)
    (det : ImageDetails) (t : Nat)
    (h : (safeCopyOnly gw imageId key det t).1.1 = true) :
    ∃ (tc tv : Nat) (b : PostBody) (imgs : List AlbumImage),
      t ≤ tc ∧ tc < tv ∧ collectCallSucceeded gw tc key b ∧
      gw.getAlbumImages tv key = Except.ok imgs ∧
      ∃ im ∈ imgs, im.image_id = imageId := by
  simp only [safeCopyOnly, M.bind_apply, M.pure_apply, sleepCall, ite_apply] at h
  rcases hr : copyViaCollectMultipleFormats gw imageId key det t with ⟨⟨succ, msg⟩, l⟩
  rw [hr] at h
  rcases succ with _ | _
  · simp [M.pure_apply] at h
  · have hcs : (copyViaCollectMultipleFormats gw imageId key det t).1.1 = true := by
      rw [hr]
    obtain ⟨k, b, hlen, hsucc⟩ := copyViaCollect_success gw imageId key det t hcs
    rw [hr] at hlen
    have hlen2 : l.length = k + 1 := by simpa using hlen
    by_cases hok : (verifyImageInAlbum gw imageId key (t + l.length + 1)).1 = true
    · obtain ⟨imgs, hresp, him⟩ := (verify_true_iff gw imageId key (t + l.length + 1)).mp hok
      exact ⟨t + k, t + l.length + 1, b, imgs, Nat.le_add_right t k,
        by omega, hsucc, hresp, him⟩
    · rw [Bool.not_eq_true] at hok
      simp [hok, M.bind_apply, M.pure_apply, sleepCall] at h

theorem copyImageToAlbum_success (gw : Gateway) (imageId key : String) (t : Nat)
    (h : (copyImageToAlbum gw imageId key t).1.1 = true) :
    ∃ (tc tv : Nat) (b : PostBody) (imgs : List AlbumImage),
      t ≤ tc ∧ tc < tv ∧ collectCallSucceeded gw tc key b ∧
      gw.getAlbumImages tv key = Except.ok imgs ∧
      ∃ im ∈ imgs, im.image_id = imageId := by
  simp only [copyImageToAlbum, M.bind_apply, M.pure_apply, callGetImageDetails,
    List.length_singleton] at h
  rcases hr : gw.getImageDetails t imageId with e | dOpt <;> rw [hr] at h
  · simp [M.pure_apply] at h
  · rcases dOpt with _ | det
    · simp [M.pure_apply] at h
    · simp only [M.bind_apply, M.pure_apply, callGetAlbumInfo, List.length_singleton] at h
      rcases hr2 : gw.getAlbumInfo (t + 1) key with e2 | iOpt <;> rw [hr2] at h
      · simp [M.pure_apply] at h
      · rcases iOpt with _ | info
        · simp [M.pure_apply] at h
        · simp only [M.bind_apply, M.pure_apply] at h
          by_cases hok : (safeCopyOnly gw imageId key det (t + 1 + 1)).1.1 = true
          · obtain ⟨tc, tv, b, imgs, htc, htv, hsucc, hresp, him⟩ :=
              safeCopyOnly_success gw imageId key det (t + 1 + 1) hok
            exact ⟨tc, tv, b, imgs, by omega, htv, hsucc, hresp, him⟩
          · rw [Bool.not_eq_true] at hok
            rcases hs : safeCopyOnly gw imageId key det (t + 1 + 1) with ⟨⟨succ, msg⟩, ls⟩
            rw [hs] at h hok
            simp only at hok
            subst hok
            simp only [Bool.false_eq_true, if_false, M.bind_apply, M.pure_apply] at h
            rw [provideManual_false gw imageId key _] at h
            simp at h

/-! ## Review-album locator lemmas -/

/-- A lookup result that names a destination album (not the manual fallback). -/
def AlbumLookup.isUsable : AlbumLookup → Bool
  | .manual _ _ _ => false
  | _ => true

/-- The locator never returns `None` in the model: every failure funnels into
the manual-instructions dict (the source's `except → None` paths sit around
callees that already catch their own exceptions). -/
theorem locator_isSome (gw : Gateway) (u d : String) (t : Nat) :
    ((findOrCreateReviewAlbum gw u d t).1).isSome = true := by
  simp only [findOrCreateReviewAlbum, findExistingSmugdupsAlbum, M.bind_apply,
    M.pure_apply, callGetUserAlbums, List.append_nil, List.length_singleton]
  rcases hu : gw.getUserAlbums t u with e | albums
  · simp only [hu, M.bind_apply, M.pure_apply, createNewReviewAlbumWorking,
      createAlbumWorkingMethod, callCreateAlbum]
    rcases hc : gw.createAlbum (t + 1) ("SmugDups Review " ++ d) ("SmugDups-review-" ++ d) with
      ⟨key, nm, w, un⟩ | _
    · by_cases hk : key != "" <;> simp [hc, hk, M.bind_apply, M.pure_apply]
    · simp [hc, M.bind_apply, M.pure_apply]
  · rcases hf : albums.filter (fun a =>
        let n := a.name.toLower
        (strContains n "smugdups" && strContains n "review") ||
        (strContains n "duplicate" && strContains n "review")) with _ | ⟨a, rest⟩
    · simp only [hu, hf, M.bind_apply, M.pure_apply, createNewReviewAlbumWorking,
        createAlbumWorkingMethod, callCreateAlbum]
      rcases hc : gw.createAlbum (t + 1) ("SmugDups Review " ++ d) ("SmugDups-review-" ++ d) with
        ⟨key, nm, w, un⟩ | _
      · by_cases hk : key != "" <;> simp [hc, hk, M.bind_apply, M.pure_apply]
      · simp [hc, M.bind_apply, M.pure_apply]
    · simp [hu, hf, M.bind_apply, M.pure_apply]

/-- The manual fallback of the locator always carries the canonical dated
names and the canonical instruction text. -/
theorem locator_manual_canonical (gw : Gateway) (u d : String) (t : Nat)
    (n i un : String)
    (h : (findOrCreateReviewAlbum gw u d t).1 = some (AlbumLookup.manual n i un)) :
    n = "SmugDups Review " ++ d ∧ un = "SmugDups-review-" ++ d ∧
      i = manualCreationInstructions ("SmugDups Review " ++ d) ("SmugDups-review-" ++ d) := by
  simp only [findOrCreateReviewAlbum, findExistingSmugdupsAlbum, M.bind_apply,
    M.pure_apply, callGetUserAlbums, List.append_nil, List.length_singleton] at h
  rcases hu : gw.getUserAlbums t u with e | albums <;> rw [hu] at h
  · simp only [M.bind_apply, M.pure_apply, createNewReviewAlbumWorking,
      createAlbumWorkingMethod, callCreateAlbum, List.append_nil,
      List.length_singleton] at h
    rcases hc : gw.createAlbum (t + 1) ("SmugDups Review " ++ d) ("SmugDups-review-" ++ d) with
      ⟨key, nm, w, un'⟩ | _ <;> rw [hc] at h
    · by_cases hk : key != "" <;> simp [hk, M.bind_apply, M.pure_apply] at h
      · exact ⟨h.1.symm, h.2.2.symm, h.2.1.symm⟩
    · simp [M.bind_apply, M.pure_apply] at h
      exact ⟨h.1.symm, h.2.2.symm, h.2.1.symm⟩
  · simp only [M.bind_apply, M.pure_apply, List.append_nil, List.length_singleton] at h
    rcases hf : albums.filter (fun a =>
        (strContains a.name.toLower "smugdups" && strContains a.name.toLower "review") ||
        (strContains a.name.toLower "duplicate" && strContains a.name.toLower "review"))
        with _ | ⟨a, rest⟩ <;> rw [hf] at h
    · simp only [M.bind_apply, M.pure_apply, createNewReviewAlbumWorking,
        createAlbumWorkingMethod, callCreateAlbum, List.append_nil,
        List.length_singleton] at h
      rcases hc : gw.createAlbum (t + 1) ("SmugDups Review " ++ d) ("SmugDups-review-" ++ d) with
        ⟨key, nm, w, un'⟩ | _ <;> rw [hc] at h
      · by_cases hk : key != "" <;> simp [hk, M.bind_apply, M.pure_apply] at h
        · exact ⟨h.1.symm, h.2.2.symm, h.2.1.symm⟩
      · simp [M.bind_apply, M.pure_apply] at h
        exact ⟨h.1.symm, h.2.2.symm, h.2.1.symm⟩
    · simp [M.pure_apply] at h

/-- The locator only lists the account's albums and possibly issues one
album-creation POST. -/
theorem locator_shape (gw : Gateway) (u d : String) (t : Nat) (c : ApiCall)
    (hc : c ∈ (findOrCreateReviewAlbum gw u d t).2) :
    c = ApiCall.getUserAlbums u ∨ ∃ nm un, c = ApiCall.createAlbum nm un := by
  simp only [findOrCreateReviewAlbum, findExistingSmugdupsAlbum, M.bind_apply,
    M.pure_apply, callGetUserAlbums, List.append_nil, List.length_singleton] at hc
  rcases hu : gw.getUserAlbums t u with e | albums <;> rw [hu] at hc
  · simp only [M.bind_apply, M.pure_apply, createNewReviewAlbumWorking,
      createAlbumWorkingMethod, callCreateAlbum, List.append_nil,
      List.length_singleton] at hc
    rcases hc2 : gw.createAlbum (t + 1) ("SmugDups Review " ++ d) ("SmugDups-review-" ++ d) with
      ⟨key, nm, w, un'⟩ | _ <;> rw [hc2] at hc
    · by_cases hk : key != "" <;> simp [hk, M.bind_apply, M.pure_apply] at hc <;>
        rcases hc with h | h
      · exact Or.inl h
      · exact Or.inr ⟨_, _, h⟩
      · exact Or.inl h
      · exact Or.inr ⟨_, _, h⟩
    · simp [M.bind_apply, M.pure_apply] at hc
      rcases hc with h | h
      · exact Or.inl h
      · exact Or.inr ⟨_, _, h⟩
  · simp only [M.bind_apply, M.pure_apply, List.append_nil, List.length_singleton] at hc
    rcases hf : albums.filter (fun a =>
        (strContains a.name.toLower "smugdups" && strContains a.name.toLower "review") ||
        (strContains a.name.toLower "duplicate" && strContains a.name.toLower "review"))
        with _ | ⟨a, rest⟩ <;> rw [hf] at hc
    · simp only [M.bind_apply, M.pure_apply, createNewReviewAlbumWorking,
        createAlbumWorkingMethod, callCreateAlbum, List.append_nil,
        List.length_singleton] at hc
      rcases hc2 : gw.createAlbum (t + 1) ("SmugDups Review " ++ d) ("SmugDups-review-" ++ d) with
        ⟨key, nm, w, un'⟩ | _ <;> rw [hc2] at hc
      · by_cases hk : key != "" <;> simp [hk, M.bind_apply, M.pure_apply] at hc <;>
          rcases hc with h | h
        · exact Or.inl h
        · exact Or.inr ⟨_, _, h⟩
        · exact Or.inl h
        · exact Or.inr ⟨_, _, h⟩
      · simp [M.bind_apply, M.pure_apply] at hc
        rcases hc with h | h
        · exact Or.inl h
        · exact Or.inr ⟨_, _, h⟩
    · simp [M.pure_apply] at hc
      exact Or.inl hc

/-! ## Batch-processing lemmas -/

/-- Per-group loop: photos are counted exactly once each
(`successful + failed = group size`) and the recorded entries are exactly the
photos with a nonempty id, in stored order, carrying their own
id / filename / source album. -/
theorem processGroupPhotos_spec (gw : Gateway) (key : String) :
    ∀ (ps : List DuplicatePhoto) (t : Nat),
      (processGroupPhotos gw key ps t).1.1 + (processGroupPhotos gw key ps t).1.2.1 =
        ps.length ∧
      (processGroupPhotos gw key ps t).1.2.2.map
          (fun e => (e.image_id, e.filename, e.source_album)) =
        (ps.filter (fun p => p.image_id != "")).map
          (fun p => (p.image_id, p.filename, p.album_name)) := by
  intro ps
  induction ps with
  | nil =>
    intro t
    simp [processGroupPhotos, M.pure_apply]
  | cons p rest ih =>
    intro t
    by_cases hid : p.image_id != ""
    · have hrec := ih (t + (copyImageToAlbum gw p.image_id key t).2.length + 1)
      rcases hrv : processGroupPhotos gw key rest
          (t + (copyImageToAlbum gw p.image_id key t).2.length + 1) with ⟨⟨s, f, rs⟩, lr⟩
      rw [hrv] at hrec
      simp only at hrec
      by_cases hsucc : (copyImageToAlbum gw p.image_id key t).1.1 = true <;>
        simp [processGroupPhotos, hid, hsucc, M.bind_apply, M.pure_apply, sleepCall,
          hrv, List.filter_cons] <;>
        constructor
      · omega
      · exact hrec.2
      · omega
      · exact hrec.2
    · have hrec := ih t
      rcases hrv : processGroupPhotos gw key rest t with ⟨⟨s, f, rs⟩, lr⟩
      rw [hrv] at hrec
      simp only at hrec
      simp [processGroupPhotos, hid, M.bind_apply, M.pure_apply, hrv, List.filter_cons]
      exact ⟨by omega, hrec.2⟩

/-- Group loop: totals are the sums over groups and the per-group entry lists
follow `processGroupPhotos_spec`. -/
theorem processGroups_spec (gw : Gateway) (key : String) :
    ∀ (gs : List (List DuplicatePhoto)) (n t : Nat),
      (processGroups gw key gs n t).1.1 + (processGroups gw key gs n t).1.2.1 =
        (gs.map List.length).sum ∧
      (processGroups gw key gs n t).1.2.2.1 = (gs.map List.length).sum ∧
      (processGroups gw key gs n t).1.2.2.2.map
          (fun g => g.image_results.map (fun e => (e.image_id, e.filename, e.source_album))) =
        gs.map (fun ps => (ps.filter (fun p => p.image_id != "")).map
          (fun p => (p.image_id, p.filename, p.album_name))) := by
  intro gs
  induction gs with
  | nil =>
    intro n t
    simp [processGroups, M.pure_apply]
  | cons g rest ih =>
    intro n t
    have hg := processGroupPhotos_spec gw key g t
    rcases hgv : processGroupPhotos gw key g t with ⟨⟨s, f, rs⟩, lg⟩
    rw [hgv] at hg
    simp only at hg
    have hr := ih (n + 1) (t + lg.length)
    rcases hrv : processGroups gw key rest (n + 1) (t + lg.length) with
      ⟨⟨ts, tf, ti, grs⟩, lrest⟩
    rw [hrv] at hr
    simp only at hr
    simp [processGroups, M.bind_apply, M.pure_apply, hgv, hrv, List.map_cons,
      List.sum_cons]
    refine ⟨by omega, by omega, hg.2, hr.2.2⟩

/-- A photo with an empty `image_id` triggers no remote call at all: its
processing emits nothing and counts one failure. -/
theorem processGroupPhotos_empty_id (gw : Gateway) (key : String)
    (p : DuplicatePhoto) (t : Nat) (hid : p.image_id = "") :
    processGroupPhotos gw key [p] t = ((0, 1, []), []) := by
  simp [processGroupPhotos, hid, M.bind_apply, M.pure_apply]

/-- Generic zero-count transport through the per-photo loop. -/
theorem processGroupPhotos_countP (gw : Gateway) (key : String) (pr : ApiCall → Bool)
    (hcopy : ∀ imageId t, ((copyImageToAlbum gw imageId key t).2.countP
      (fun c => pr c)) = 0)
    (hsleep : pr (ApiCall.sleep 1000) = false) :
    ∀ (ps : List DuplicatePhoto) (t : Nat),
      ((processGroupPhotos gw key ps t).2.countP (fun c => pr c)) = 0 := by
  intro ps
  induction ps with
  | nil =>
    intro t
    simp [processGroupPhotos, M.pure_apply]
  | cons p rest ih =>
    intro t
    by_cases hid : p.image_id != "" <;>
      simp [processGroupPhotos, hid, M.bind_apply, M.pure_apply, sleepCall,
        List.countP_append, List.countP_cons, hcopy, hsleep, ih]

/-- Generic zero-count transport through the group loop. -/
theorem processGroups_countP (gw : Gateway) (key : String) (pr : ApiCall → Bool)
    (hgroup : ∀ ps t, ((processGroupPhotos gw key ps t).2.countP (fun c => pr c)) = 0) :
    ∀ (gs : List (List DuplicatePhoto)) (n t : Nat),
      ((processGroups gw key gs n t).2.countP (fun c => pr c)) = 0 := by
  intro gs
  induction gs with
  | nil =>
    intro n t
    simp [processGroups, M.pure_apply]
  | cons g rest ih =>
    intro n t
    simp [processGroups, M.bind_apply, M.pure_apply, List.countP_append, hgroup, ih]

/-- Generic zero-count transport through the whole batch entry point. -/
theorem processDuplicates_countP (gw : Gateway)
    (groups : List (List DuplicatePhoto)) (u d : String) (t : Nat)
    (pr : ApiCall → Bool)
    (hloc : (((findOrCreateReviewAlbum gw u d t).2).countP (fun c => pr c)) = 0)
    (hgroups : ∀ key gs n t',
      ((processGroups gw key gs n t').2.countP (fun c => pr c)) = 0) :
    (((processDuplicatesForReview gw groups u d t).2).countP (fun c => pr c)) = 0 := by
  simp only [processDuplicatesForReview, M.bind_apply, M.pure_apply]
  rcases hra : findOrCreateReviewAlbum gw u d t with ⟨ra, lra⟩
  have hloc2 : lra.countP (fun c => pr c) = 0 := by
    rw [hra] at hloc
    exact hloc
  rcases ra with _ | album
  · simp [M.pure_apply, List.countP_append, hloc2]
  · rcases album with ⟨k, nm, w, cnt⟩ | ⟨k, nm, w, un⟩ | ⟨nm, i, un⟩ <;>
      simp [M.bind_apply, M.pure_apply, List.countP_append, hloc2, hgroups]

/-- When the locator yields a usable album, the batch completes into a
summary whose counts and per-photo entries follow the per-group specs. -/
theorem process_done_spec (gw : Gateway) (groups : List (List DuplicatePhoto))
    (u d : String) (t : Nat) (album : AlbumLookup)
    (hra : (findOrCreateReviewAlbum gw u d t).1 = some album)
    (husable : album.isUsable = true) :
    ∃ s, (processDuplicatesForReview gw groups u d t).1 = ProcessResult.done s ∧
      s.review_album = album ∧
      s.total_groups = groups.length ∧
      s.successful_copies + s.failed_copies = s.total_images ∧
      s.total_images = (groups.map List.length).sum ∧
      s.success_rate = (if 0 < s.total_images then
        ((s.successful_copies : ℚ) / (s.total_images : ℚ)) * 100 else 0) ∧
      s.group_results.map (fun g => g.image_results.map
        (fun e => (e.image_id, e.filename, e.source_album))) =
        groups.map (fun ps => (ps.filter (fun p => p.image_id != "")).map
          (fun p => (p.image_id, p.filename, p.album_name))) := by
  simp only [processDuplicatesForReview, M.bind_apply, M.pure_apply, hra]
  rcases album with ⟨k, nm, w, cnt⟩ | ⟨k, nm, w, un⟩ | ⟨nm, i, un⟩
  · have hspec := processGroups_spec gw (AlbumLookup.found k nm w cnt).keyOf groups 1
      (t + (findOrCreateReviewAlbum gw u d t).2.length)
    rcases hpg : processGroups gw (AlbumLookup.found k nm w cnt).keyOf groups 1
        (t + (findOrCreateReviewAlbum gw u d t).2.length) with ⟨⟨s, f, ti, grs⟩, lg⟩
    rw [hpg] at hspec
    simp only at hspec
    simp only [M.bind_apply, M.pure_apply, hpg]
    exact ⟨_, rfl, rfl, rfl, hspec.1.trans hspec.2.1.symm, hspec.2.1, rfl, hspec.2.2⟩
  · have hspec := processGroups_spec gw (AlbumLookup.created k nm w un).keyOf groups 1
      (t + (findOrCreateReviewAlbum gw u d t).2.length)
    rcases hpg : processGroups gw (AlbumLookup.created k nm w un).keyOf groups 1
        (t + (findOrCreateReviewAlbum gw u d t).2.length) with ⟨⟨s, f, ti, grs⟩, lg⟩
    rw [hpg] at hspec
    simp only at hspec
    simp only [M.bind_apply, M.pure_apply, hpg]
    exact ⟨_, rfl, rfl, rfl, hspec.1.trans hspec.2.1.symm, hspec.2.1, rfl, hspec.2.2⟩
  · simp [AlbumLookup.isUsable] at husable

/-! ## Default-selection lemmas -/

theorem keyLe_refl (a : Nat × Nat) : keyLe a a := by unfold keyLe; omega

theorem keyLe_trans {a b c : Nat × Nat} (h1 : keyLe a b) (h2 : keyLe b c) : keyLe a c := by
  unfold keyLe at *; omega

theorem keyLt_le {a b : Nat × Nat} (h : keyLt a b) : keyLe a b := by
  unfold keyLt at h; unfold keyLe; omega

theorem not_keyLt_iff (a b : Nat × Nat) : ¬ keyLt a b ↔ keyLe b a := by
  unfold keyLt keyLe; omega

/-- `scoreKey` never looks at the `keep` flag. -/
theorem scoreKey_keep (p : DuplicatePhoto) (b : Bool) :
    scoreKey { p with keep := b } = scoreKey p := rfl

theorem mem_enumFrom_of_mem {α : Type} {x : α} :
    ∀ {m : List α}, x ∈ m → ∀ n, ∃ i, (i, x) ∈ List.enumFrom n m := by
  intro m
  induction m with
  | nil => intro h; simp at h
  | cons a rest ih =>
    intro h n
    rcases List.mem_cons.mp h with rfl | hm
    · exact ⟨n, by simp [List.enumFrom]⟩
    · obtain ⟨i, hi⟩ := ih hm (n + 1)
      exact ⟨i, by simp [List.enumFrom, hi]⟩

theorem snd_mem_of_mem_enumFrom {α : Type} {i : Nat} {x : α} :
    ∀ {m : List α} {n : Nat}, (i, x) ∈ List.enumFrom n m → x ∈ m := by
  intro m
  induction m with
  | nil => intro n h; simp [List.enumFrom] at h
  | cons a rest ih =>
    intro n h
    simp only [List.enumFrom, List.mem_cons] at h
    rcases h with h | h
    · simp [Prod.ext_iff] at h
      simp [h.2]
    · exact List.mem_cons_of_mem _ (ih h)

theorem enumFrom_functional {α : Type} {i : Nat} {x y : α} {m : List α} {n : Nat}
    (hx : (i, x) ∈ List.enumFrom n m) (hy : (i, y) ∈ List.enumFrom n m) : x = y := by
  have h1 := (List.mk_mem_enumFrom_iff_le_and_getElem?_sub).mp hx
  have h2 := (List.mk_mem_enumFrom_iff_le_and_getElem?_sub).mp hy
  have := h1.2.symm.trans h2.2
  simpa using this

theorem bestAux_spec :
    ∀ (ds : List (Nat × DuplicatePhoto)) (acc : Nat × (Nat × Nat)),
      ((bestAux ds acc = acc) ∨ (∃ ip ∈ ds, bestAux ds acc = (ip.1, scoreKey ip.2))) ∧
      keyLe acc.2 (bestAux ds acc).2 ∧
      ∀ ip ∈ ds, keyLe (scoreKey ip.2) (bestAux ds acc).2 := by
  intro ds
  induction ds with
  | nil =>
    intro acc
    exact ⟨Or.inl rfl, keyLe_refl _, by simp⟩
  | cons hd rest ih =>
    intro acc
    obtain ⟨i, p⟩ := hd
    simp only [bestAux]
    by_cases hlt : keyLt acc.2 (scoreKey p)
    · simp only [hlt, if_true]
      obtain ⟨h1, h2, h3⟩ := ih (i, scoreKey p)
      refine ⟨?_, ?_, ?_⟩
      · rcases h1 with h | ⟨ip, hmem, heq⟩
        · exact Or.inr ⟨(i, p), by simp, h⟩
        · exact Or.inr ⟨ip, by simp [hmem], heq⟩
      · exact keyLe_trans (keyLt_le hlt) h2
      · intro ip hmem
        rcases List.mem_cons.mp hmem with h | hm
        · subst h
          exact h2
        · exact h3 ip hm
    · simp only [hlt, if_false]
      obtain ⟨h1, h2, h3⟩ := ih acc
      refine ⟨?_, h2, ?_⟩
      · rcases h1 with h | ⟨ip, hmem, heq⟩
        · exact Or.inl h
        · exact Or.inr ⟨ip, by simp [hmem], heq⟩
      · intro ip hmem
        rcases List.mem_cons.mp hmem with h | hm
        · subst h
          exact keyLe_trans ((not_keyLt_iff _ _).mp hlt) h2
        · exact h3 ip hm

/-- The selected index names a member whose key dominates every member's key. -/
theorem bestChoice_spec (l : List DuplicatePhoto) (j : Nat) (h : bestChoice l = some j) :
    ∃ q, (j, q) ∈ l.enum ∧ ∀ r ∈ l, keyLe (scoreKey r) (scoreKey q) := by
  match l with
  | [] => simp [bestChoice] at h
  | p :: tl =>
    simp only [bestChoice, Option.some.injEq] at h
    obtain ⟨h1, h2, h3⟩ := bestAux_spec (List.enumFrom 1 tl) (0, scoreKey p)
    rcases h1 with he | ⟨ip, hmem, heq⟩
    · refine ⟨p, ?_, ?_⟩
      · rw [← h, he]
        simp [List.enum_cons]
      · intro rr hrr
        have h2' : keyLe (scoreKey p) (scoreKey p) := keyLe_refl _
        rcases List.mem_cons.mp hrr with h | hm
        · subst h
          exact keyLe_refl _
        · obtain ⟨i, hi⟩ := mem_enumFrom_of_mem hm 1
          have := h3 (i, rr) hi
          rw [he] at this
          exact this
    · refine ⟨ip.2, ?_, ?_⟩
      · rw [← h, heq]
        simp only [List.enum_cons, List.mem_cons]
        right
        simpa using hmem
      · intro rr hrr
        rcases List.mem_cons.mp hrr with hh | hm
        · subst hh
          have := h2
          rw [heq] at this
          exact this
        · obtain ⟨i, hi⟩ := mem_enumFrom_of_mem hm 1
          have := h3 (i, rr) hi
          rw [heq] at this
          exact this

theorem bestChoice_lt_length (l : List DuplicatePhoto) (j : Nat)
    (h : bestChoice l = some j) : j < l.length := by
  obtain ⟨q, hq, _⟩ := bestChoice_spec l j h
  have := (List.mk_mem_enumFrom_iff_le_and_getElem?_sub).mp (by simpa [List.enum] using hq)
  have h2 := this.2
  simp only [Nat.sub_zero] at h2
  exact List.getElem?_eq_some.mp (by simpa using h2) |>.1

theorem bestChoice_isSome (l : List DuplicatePhoto) (hne : l ≠ []) :
    ∃ j, bestChoice l = some j := by
  match l, hne with
  | p :: tl, _ => exact ⟨_, rfl⟩

theorem enumFrom_countP_idx {α : Type} (j : Nat) :
    ∀ (m : List α) (n : Nat),
      ((List.enumFrom n m).countP (fun ip => ip.1 == j)) =
        if n ≤ j ∧ j < n + m.length then 1 else 0 := by
  intro m
  induction m with
  | nil =>
    intro n
    simp only [List.enumFrom, List.countP_nil, List.length_nil]
    rw [if_neg (by omega)]
  | cons a rest ih =>
    intro n
    simp only [List.enumFrom, List.countP_cons, ih (n + 1), List.length_cons]
    by_cases h1 : n = j <;> by_cases h2 : n + 1 ≤ j ∧ j < n + 1 + rest.length <;>
      by_cases h3 : n ≤ j ∧ j < n + (rest.length + 1) <;>
      simp [h1, h2, h3] <;> omega

theorem applyDefaultSelection_eq (l : List DuplicatePhoto) (j : Nat)
    (h : bestChoice l = some j) :
    applyDefaultSelection l = l.enum.map (fun ip => { ip.2 with keep := ip.1 == j }) := by
  simp [applyDefaultSelection, h]

/-- Default selection marks exactly one member `keep = true`. -/
theorem sel_keep_count (l : List DuplicatePhoto) (hne : l ≠ []) :
    ((applyDefaultSelection l).countP (fun p => p.keep)) = 1 := by
  obtain ⟨j, hj⟩ := bestChoice_isSome l hne
  rw [applyDefaultSelection_eq l j hj, List.countP_map]
  have hcomp : ((fun p => p.keep) ∘ (fun ip : Nat × DuplicatePhoto =>
      { ip.2 with keep := ip.1 == j })) = fun ip => ip.1 == j := rfl
  rw [hcomp]
  have := enumFrom_countP_idx j l 0
  rw [List.enum] at *
  rw [this]
  have hlt := bestChoice_lt_length l j hj
  simp [Nat.zero_add, hlt]

/-- The kept member attains the maximal `(score, size)` key of the group. -/
theorem sel_keep_max (l : List DuplicatePhoto) (p : DuplicatePhoto)
    (hp : p ∈ (applyDefaultSelection l).filter (fun p => p.keep)) :
    ∀ q ∈ l, keyLe (scoreKey q) (scoreKey p) := by
  intro q hq
  rcases hbc : bestChoice l with _ | j
  · match l, hq with
    | a :: t, _ => simp [bestChoice] at hbc
  · rw [applyDefaultSelection_eq l j hbc, List.mem_filter] at hp
    obtain ⟨hmem, hkeep⟩ := hp
    obtain ⟨ip, hip, hfeq⟩ := List.mem_map.mp hmem
    obtain ⟨q0, hq0, hmax⟩ := bestChoice_spec l j hbc
    have hkeep2 : (ip.1 == j) = true := by
      rw [← hfeq] at hkeep
      simpa using hkeep
    have hij : ip.1 = j := by simpa using hkeep2
    have hjmem : (j, ip.2) ∈ l.enum := by
      rw [← hij]
      simpa using hip
    have hqq : ip.2 = q0 := enumFrom_functional (by simpa [List.enum] using hjmem)
      (by simpa [List.enum] using hq0)
    have hscore : scoreKey p = scoreKey q0 := by
      rw [← hfeq, scoreKey_keep, hqq]
    rw [hscore]
    exact hmax q hq

theorem enum_map_proj {β : Type} (proj : DuplicatePhoto → β)
    (hproj : ∀ x b, proj { x with keep := b } = proj x) (j : Nat) :
    ∀ (m : List DuplicatePhoto) (n : Nat),
      ((List.enumFrom n m).map (fun ip => { ip.2 with keep := ip.1 == j })).map proj =
        m.map proj := by
  intro m
  induction m with
  | nil =>
    intro n
    simp [List.enumFrom]
  | cons a rest ih =>
    intro n
    simp [List.enumFrom, ih (n + 1), hproj]

/-- Default selection only flips `keep` flags: any keep-insensitive projection
of the members is untouched, in order. -/
theorem sel_map_proj {β : Type} (proj : DuplicatePhoto → β)
    (hproj : ∀ x b, proj { x with keep := b } = proj x)
    (l : List DuplicatePhoto) :
    (applyDefaultSelection l).map proj = l.map proj := by
  rcases hbc : bestChoice l with _ | j
  · simp [applyDefaultSelection, hbc]
  · rw [applyDefaultSelection_eq l j hbc]
    have := enum_map_proj proj hproj j l 0
    rw [List.enum]
    exact this

theorem sel_length (l : List DuplicatePhoto) :
    (applyDefaultSelection l).length = l.length := by
  have := congrArg List.length (sel_map_proj (fun p => p.image_id) (fun _ _ => rfl) l)
  simpa using this

theorem bestAux_congr :
    ∀ (t1 t2 : List DuplicatePhoto) (n : Nat) (acc : Nat × (Nat × Nat)),
      t1.map scoreKey = t2.map scoreKey →
      bestAux (List.enumFrom n t1) acc = bestAux (List.enumFrom n t2) acc := by
  intro t1
  induction t1 with
  | nil =>
    intro t2 n acc h
    have : t2 = [] := by
      cases t2 with
      | nil => rfl
      | cons b tb => simp at h
    subst this
    rfl
  | cons a ta ih =>
    intro t2 n acc h
    cases t2 with
    | nil => simp at h
    | cons b tb =>
      simp only [List.map_cons, List.cons.injEq] at h
      simp only [List.enumFrom, bestAux, h.1]
      exact ih tb (n + 1) _ h.2

theorem bestChoice_congr (l1 l2 : List DuplicatePhoto)
    (h : l1.map scoreKey = l2.map scoreKey) : bestChoice l1 = bestChoice l2 := by
  cases l1 with
  | nil =>
    have : l2 = [] := by
      cases l2 with
      | nil => rfl
      | cons b tb => simp at h
    subst this
    rfl
  | cons a ta =>
    cases l2 with
    | nil => simp at h
    | cons b tb =>
      simp only [List.map_cons, List.cons.injEq] at h
      simp only [bestChoice, h.1, bestAux_congr ta tb 1 _ h.2]

theorem sel_map_idem (j : Nat) :
    ∀ (m : List DuplicatePhoto) (n : Nat),
      (List.enumFrom n ((List.enumFrom n m).map (fun ip =>
          { ip.2 with keep := ip.1 == j }))).map
        (fun ip => { ip.2 with keep := ip.1 == j }) =
      (List.enumFrom n m).map (fun ip => { ip.2 with keep := ip.1 == j }) := by
  intro m
  induction m with
  | nil =>
    intro n
    simp [List.enumFrom]
  | cons a rest ih =>
    intro n
    simp only [List.enumFrom, List.map_cons]
    rw [ih (n + 1)]

/-- Default selection is repeatable: re-running it on its own output changes
nothing (scores ignore the `keep` flags it writes). -/
theorem sel_idem (l : List DuplicatePhoto) :
    applyDefaultSelection (applyDefaultSelection l) = applyDefaultSelection l := by
  rcases hbc : bestChoice l with _ | j
  · have : l = [] := by
      cases l with
      | nil => rfl
      | cons a t => simp [bestChoice] at hbc
    subst this
    rfl
  · have hs := applyDefaultSelection_eq l j hbc
    have hkeys : (applyDefaultSelection l).map scoreKey = l.map scoreKey :=
      sel_map_proj scoreKey (fun x b => scoreKey_keep x b) l
    have hbc2 : bestChoice (applyDefaultSelection l) = some j := by
      rw [bestChoice_congr _ _ hkeys, hbc]
    rw [applyDefaultSelection_eq _ j hbc2, hs]
    have := sel_map_idem j l 0
    simp only [List.enum] at *
    exact this

/-! ## Grouping lemmas -/

theorem hashOrder_append_one (pre : List ImageData) (x : ImageData) :
    hashOrder (pre ++ [x]) =
      if x.md5_hash = "" then hashOrder pre
      else if x.md5_hash ∈ hashOrder pre then hashOrder pre
      else hashOrder pre ++ [x.md5_hash] := by
  simp [hashOrder, List.foldl_append]

theorem md5Groups_append_one (pre : List ImageData) (x : ImageData) :
    md5Groups (pre ++ [x]) =
      if x.md5_hash = "" then md5Groups pre
      else insertHash (md5Groups pre) x.md5_hash x := by
  simp [md5Groups, List.foldl_append]

theorem hashOrder_nodup (imgs : List ImageData) : (hashOrder imgs).Nodup := by
  induction imgs using List.reverseRecOn with
  | nil => simp [hashOrder]
  | append_singleton pre x ih =>
    rw [hashOrder_append_one]
    by_cases hx : x.md5_hash = ""
    · simp [hx, ih]
    · by_cases hm : x.md5_hash ∈ hashOrder pre
      · simp [hx, hm, ih]
      · simp [hx, hm, List.nodup_append, ih, List.disjoint_singleton]

theorem hashOrder_ne_empty (imgs : List ImageData) :
    ∀ h ∈ hashOrder imgs, h ≠ "" := by
  induction imgs using List.reverseRecOn with
  | nil => simp [hashOrder]
  | append_singleton pre x ih =>
    rw [hashOrder_append_one]
    by_cases hx : x.md5_hash = ""
    · simpa [hx] using ih
    · by_cases hm : x.md5_hash ∈ hashOrder pre
      · simpa [hx, hm] using ih
      · simp only [hx, hm, if_false, if_neg]
        intro h hh
        rcases List.mem_append.mp hh with h1 | h2
        · exact ih h h1
        · simp at h2
          subst h2
          exact hx

theorem hashOrder_complete (imgs : List ImageData) :
    ∀ i ∈ imgs, i.md5_hash ≠ "" → i.md5_hash ∈ hashOrder imgs := by
  induction imgs using List.reverseRecOn with
  | nil => simp
  | append_singleton pre x ih =>
    rw [hashOrder_append_one]
    intro i hi hne
    by_cases hx : x.md5_hash = ""
    · simp only [hx, if_true]
      rcases List.mem_append.mp hi with h1 | h2
      · exact ih i h1 hne
      · simp at h2
        subst h2
        exact absurd hx hne
    · by_cases hm : x.md5_hash ∈ hashOrder pre
      · simp only [hx, hm, if_false, if_true]
        rcases List.mem_append.mp hi with h1 | h2
        · exact ih i h1 hne
        · simp at h2
          subst h2
          exact hm
      · simp only [hx, hm, if_false]
        rcases List.mem_append.mp hi with h1 | h2
        · exact List.mem_append_left _ (ih i h1 hne)
        · simp at h2
          subst h2
          simp

theorem filter_hash_nil (imgs : List ImageData) (h : String) (hne : h ≠ "")
    (hni : h ∉ hashOrder imgs) :
    imgs.filter (fun i => i.md5_hash == h) = [] := by
  rw [List.filter_eq_nil_iff]
  intro i hi
  simp only [beq_iff_eq]
  intro heq
  exact hni (heq ▸ hashOrder_complete imgs i hi (heq ▸ hne))

theorem insertHash_notmem (F : String → List ImageData) (x : ImageData) (h0 : String) :
    ∀ (hs : List String), h0 ∉ hs →
      insertHash (hs.map (fun h => (h, F h))) h0 x =
        hs.map (fun h => (h, F h)) ++ [(h0, [x])] := by
  intro hs
  induction hs with
  | nil => intro _; rfl
  | cons a rest ih =>
    intro hmem
    simp only [List.mem_cons, not_or] at hmem
    simp only [List.map_cons, insertHash]
    rw [if_neg (fun hh => hmem.1 hh.symm), ih hmem.2]
    simp

theorem insertHash_mem (F : String → List ImageData) (x : ImageData) (h0 : String) :
    ∀ (hs : List String), hs.Nodup → h0 ∈ hs →
      insertHash (hs.map (fun h => (h, F h))) h0 x =
        hs.map (fun h => (h, if h = h0 then F h ++ [x] else F h)) := by
  intro hs
  induction hs with
  | nil => intro _ h; simp at h
  | cons a rest ih =>
    intro hnd hmem
    simp only [List.nodup_cons] at hnd
    simp only [List.map_cons, insertHash]
    by_cases ha : a = h0
    · rw [if_pos ha, if_pos ha]
      subst ha
      congr 1
      apply List.map_congr_left
      intro h hh
      rw [if_neg]
      intro heq
      exact hnd.1 (heq ▸ hh)
    · rw [if_neg ha, if_neg ha]
      rcases List.mem_cons.mp hmem with h | h
      · exact absurd h.symm ha
      · rw [ih hnd.2 h]

theorem md5Groups_spec (imgs : List ImageData) :
    md5Groups imgs =
      (hashOrder imgs).map (fun h => (h, imgs.filter (fun i => i.md5_hash == h))) := by
  induction imgs using List.reverseRecOn with
  | nil => rfl
  | append_singleton pre x ih =>
    rw [md5Groups_append_one, hashOrder_append_one, ih]
    by_cases hx : x.md5_hash = ""
    · simp only [hx, if_true]
      apply List.map_congr_left
      intro h hh
      have hne := hashOrder_ne_empty pre h hh
      simp only [List.filter_append, Prod.mk.injEq, true_and]
      have : (List.filter (fun i => i.md5_hash == h) [x]) = [] := by
        simp [hx, Ne.symm hne]
      rw [this, List.append_nil]
    · by_cases hm : x.md5_hash ∈ hashOrder pre
      · simp only [hx, hm, if_false, if_true]
        rw [insertHash_mem _ x _ _ (hashOrder_nodup pre) hm]
        apply List.map_congr_left
        intro h hh
        simp only [Prod.mk.injEq, true_and, List.filter_append]
        by_cases he : h = x.md5_hash
        · subst he
          simp
        · rw [if_neg he]
          have : (List.filter (fun i => i.md5_hash == h) [x]) = [] := by
            simp only [List.filter_cons, List.filter_nil, beq_iff_eq]
            rw [if_neg (fun hh2 => he hh2.symm)]
          rw [this, List.append_nil]
      · simp only [hx, hm, if_false]
        rw [insertHash_notmem _ x _ _ hm, List.map_append]
        congr 1
        · apply List.map_congr_left
          intro h hh
          simp only [Prod.mk.injEq, true_and, List.filter_append]
          have hne2 : h ≠ x.md5_hash := fun heq => hm (heq ▸ hh)
          have : (List.filter (fun i => i.md5_hash == h) [x]) = [] := by
            simp only [List.filter_cons, List.filter_nil, beq_iff_eq]
            rw [if_neg (fun hh2 => hne2 hh2.symm)]
          rw [this, List.append_nil]
        · simp only [List.map_cons, List.map_nil, List.filter_append]
          rw [filter_hash_nil pre x.md5_hash hx hm]
          simp

/-- The hashes (in first-occurrence order) that form duplicate groups. -/
def dupHashes (imgs : List ImageData) : List String :=
  (hashOrder imgs).filter (fun h => 1 < (imgs.filter (fun i => i.md5_hash == h)).length)

theorem filterMap_ite {α β : Type} (P : α → Prop) [DecidablePred P] (G : α → β) :
    ∀ (hs : List α),
      hs.filterMap (fun h => if P h then some (G h) else none) =
        (hs.filter (fun h => P h)).map G := by
  intro hs
  induction hs with
  | nil => rfl
  | cons a rest ih =>
    by_cases ha : P a <;> simp [ha, ih]

theorem findDuplicateGroups_eq (imgs : List ImageData) :
    findDuplicateGroups imgs =
      (dupHashes imgs).map (fun h =>
        applyDefaultSelection ((imgs.filter (fun i => i.md5_hash == h)).map
          mkDuplicatePhoto)) := by
  rw [findDuplicateGroups, md5Groups_spec, List.filterMap_map, dupHashes]
  have := filterMap_ite (fun h : String =>
      1 < (imgs.filter (fun i => i.md5_hash == h)).length)
    (fun h => applyDefaultSelection ((imgs.filter (fun i => i.md5_hash == h)).map
      mkDuplicatePhoto)) (hashOrder imgs)
  rw [← this]
  rfl

/-! ## Batch-level no-move / no-delete lemmas -/

theorem locator_countP_zero (gw : Gateway) (u d : String) (t : Nat)
    (pr : ApiCall → Bool)
    (hua : ∀ u', pr (ApiCall.getUserAlbums u') = false)
    (hca : ∀ nm un, pr (ApiCall.createAlbum nm un) = false) :
    (((findOrCreateReviewAlbum gw u d t).2).countP (fun c => pr c)) = 0 := by
  refine List.countP_eq_zero.mpr ?_
  intro c hc
  rcases locator_shape gw u d t c hc with rfl | ⟨nm, un, rfl⟩ <;> simp [hua, hca]

theorem processDuplicates_no_move (gw : Gateway)
    (groups : List (List DuplicatePhoto)) (u d : String) (t : Nat) :
    (((processDuplicatesForReview gw groups u d t).2).countP
      (fun c => isMoveCall c)) = 0 :=
  processDuplicates_countP gw groups u d t _
    (locator_countP_zero gw u d t _ (fun _ => rfl) (fun _ _ => rfl))
    (fun key gs n t' => processGroups_countP gw key _
      (fun ps t'' => processGroupPhotos_countP gw key _
        (fun iid t3 => copyImageToAlbum_no_move gw iid key t3) rfl ps t'') gs n t')

theorem processDuplicates_no_delete (gw : Gateway)
    (groups : List (List DuplicatePhoto)) (u d : String) (t : Nat) :
    (((processDuplicatesForReview gw groups u d t).2).countP
      (fun c => isDeleteCall c)) = 0 :=
  processDuplicates_countP gw groups u d t _
    (locator_countP_zero gw u d t _ (fun _ => rfl) (fun _ _ => rfl))
    (fun key gs n t' => processGroups_countP gw key _
      (fun ps t'' => processGroupPhotos_countP gw key _
        (fun iid t3 => copyImageToAlbum_no_delete gw iid key t3) rfl ps t'') gs n t')

/-! ## Concrete fixtures for witnesses and counterexamples -/

/-- Image-details fixture (no URI fields, as for a minimal response). -/
def detOK : ImageDetails := ⟨"photo1.jpg", "", ""⟩

/-- Album-info fixture. -/
def infoOK : AlbumInfo := ⟨"SmugDups Review 20250101", "ALB1", "https://rev.example"⟩

/-- Destination-listing row for photo `P1`. -/
def rowP1 : AlbumImage := ⟨"P1", "photo1.jpg", "Review", "u1"⟩

/-- Destination-listing row for photo `P3`. -/
def rowP3 : AlbumImage := ⟨"P3", "photo3.jpg", "Review", "u3"⟩

/-- A gateway where every step succeeds: existence checks pass, the collect
POST returns HTTP 200, the destination listing contains `P1` and `P3`, and
album creation works (the account has no albums yet). -/
def gwHappy : Gateway where
  getImageDetails := fun _ _ => Except.ok (some detOK)
  getAlbumInfo := fun _ _ => Except.ok (some infoOK)
  getAlbumImages := fun _ _ => Except.ok [rowP1, rowP3]
  getUserAlbums := fun _ _ => Except.ok []
  postCollect := fun _ _ _ => HttpPost.resp 200 none
  postMove := fun _ _ _ => HttpPost.resp 404 none
  createAlbum := fun _ _ _ =>
    CreateAlbumResp.ok "REV1" "SmugDups Review 20250101" "https://rev.example"
      "SmugDups-review-20250101"
  deleteImageWithDetails := fun _ _ => Except.ok (true, "deleted")
  rawGet := fun _ _ => Except.ok 200

/-- Like `gwHappy` but the destination listing is always empty: the collect
POST reports HTTP success while the remote state never shows the image. -/
def gwEmptyListing : Gateway :=
  { gwHappy with getAlbumImages := fun _ _ => Except.ok [] }

/-- Like `gwHappy` but album creation fails (remote validation error) — the
locator must fall back to manual instructions. -/
def gwNoAlbum : Gateway :=
  { gwHappy with createAlbum := fun _ _ _ => CreateAlbumResp.failed }

/-! ## Claims -/

/-- C10: verification is fail-safe — `_verify_image_in_album` returns `true`
exactly when the destination listing was retrieved successfully and positively
contains the photo's `image_id`; an unretrievable listing, an empty listing or
a raised listing call all yield `false`. -/
theorem c10_verification_fail_safe (gw : Gateway) (imageId albumKey : String) (t : Nat) :
    (verifyImageInAlbum gw imageId albumKey t).1 = true ↔
      ∃ imgs, gw.getAlbumImages t albumKey = Except.ok imgs ∧
        ∃ im ∈ imgs, im.image_id = imageId :=
  verify_true_iff gw imageId albumKey t

/-- C1: `copy_image_to_album` reports success only when, at some event time
after a collect POST that was accepted, a fresh listing of the destination
album contains the photo's `image_id`; contrapositively, if no listing
response ever contains the id (in particular when the POST returns
HTTP success but the listing disagrees), the engine reports failure. -/
theorem c1_success_requires_verified_listing (gw : Gateway) (imageId key : String)
    (t : Nat) :
    ((copyImageToAlbum gw imageId key t).1.1 = true →
      ∃ (tc tv : Nat) (b : PostBody) (imgs : List AlbumImage),
        t ≤ tc ∧ tc < tv ∧ collectCallSucceeded gw tc key b ∧
        gw.getAlbumImages tv key = Except.ok imgs ∧
        ∃ im ∈ imgs, im.image_id = imageId) ∧
    ((∀ t' imgs, gw.getAlbumImages t' key = Except.ok imgs →
        ∀ im ∈ imgs, im.image_id ≠ imageId) →
      (copyImageToAlbum gw imageId key t).1.1 = false) := by
  constructor
  · exact copyImageToAlbum_success gw imageId key t
  · intro hno
    by_contra hcon
    rw [Bool.not_eq_false] at hcon
    obtain ⟨tc, tv, b, imgs, _, _, _, hresp, im, him, hid⟩ :=
      copyImageToAlbum_success gw imageId key t hcon
    exact hno tv imgs hresp im him hid

/-- Witness for C1: on `gwHappy`, the copy succeeds and the verified-listing
decomposition exists. -/
theorem c1_witness :
    (copyImageToAlbum gwHappy "P1" "ALB1" 0).1.1 = true ∧
    (∃ (tc tv : Nat) (b : PostBody) (imgs : List AlbumImage),
      0 ≤ tc ∧ tc < tv ∧ collectCallSucceeded gwHappy tc "ALB1" b ∧
      gwHappy.getAlbumImages tv "ALB1" = Except.ok imgs ∧
      ∃ im ∈ imgs, im.image_id = "P1") :=
  ⟨by rfl, (c1_success_requires_verified_listing gwHappy "P1" "ALB1" 0).1 (by rfl)⟩

/-- Counterexample for C2: a full run of the relocation primitive issues a
collect (copy) call without any preceding move call — there is no move tier at
all, so "the copy tier is never entered without a preceding move attempt" is
false on the code. -/
theorem c2_counterexample :
    ((copyImageToAlbum gwHappy "P1" "ALB1" 0).2.countP
      (fun c => isCollectCall c)) = 1 ∧
    ((copyImageToAlbum gwHappy "P1" "ALB1" 0).2.countP
      (fun c => isMoveCall c)) = 0 := by
  constructor <;> rfl

/-- C2 (amended): the engine never attempts the remote move primitive — every
relocation goes directly to the verified copy-without-delete tier and then to
manual instructions; no `!moveimages` POST ever appears in the call log,
neither per photo nor across a whole batch. -/
theorem c2_amended_no_move_tier (gw : Gateway) (imageId key u d : String)
    (groups : List (List DuplicatePhoto)) (t : Nat) :
    ((copyImageToAlbum gw imageId key t).2.countP (fun c => isMoveCall c)) = 0 ∧
    (((processDuplicatesForReview gw groups u d t).2).countP
      (fun c => isMoveCall c)) = 0 :=
  ⟨copyImageToAlbum_no_move gw imageId key t,
   processDuplicates_no_move gw groups u d t⟩

/-- C3: the relocation fallback chain never issues a delete call — the
per-photo copy/verify path and the whole batch entry point log zero
`delete_image` invocations, so the source-album original is preserved. -/
theorem c3_never_deletes (gw : Gateway) (imageId key u d : String)
    (groups : List (List DuplicatePhoto)) (t : Nat) :
    ((copyImageToAlbum gw imageId key t).2.countP (fun c => isDeleteCall c)) = 0 ∧
    (((processDuplicatesForReview gw groups u d t).2).countP
      (fun c => isDeleteCall c)) = 0 :=
  ⟨copyImageToAlbum_no_delete gw imageId key t,
   processDuplicates_no_delete gw groups u d t⟩

/-- Counterexample for C5: with an accepted collect POST but an empty
destination listing, the engine declares the photo failed after exactly one
listing read — not after "more than one listing read", as the claim requires
for every verification failure. -/
theorem c5_counterexample :
    (copyImageToAlbum gwEmptyListing "P1" "ALB1" 0).1.1 = false ∧
    ((copyImageToAlbum gwEmptyListing "P1" "ALB1" 0).2.countP
      (fun c => isListingCall c)) = 1 := by
  constructor <;> rfl

/-- C5 (amended): each verification performs exactly one listing read of the
destination (after the single fixed 2-second pause); there is no retry loop —
the whole per-photo copy path reads the destination listing at most once
before reporting its outcome. -/
theorem c5_amended_single_listing_read (gw : Gateway) (imageId key : String)
    (det : ImageDetails) (t : Nat) :
    ((verifyImageInAlbum gw imageId key t).2.countP (fun c => isListingCall c)) = 1 ∧
    ((safeCopyOnly gw imageId key det t).2.countP (fun c => isListingCall c)) ≤ 1 ∧
    ((copyImageToAlbum gw imageId key t).2.countP (fun c => isListingCall c)) ≤ 1 :=
  ⟨verify_one_listing gw imageId key t,
   safeCopyOnly_listing_le_one gw imageId key det t,
   copyImageToAlbum_listing_le_one gw imageId key t⟩

theorem manualCreationInstructions_ne_empty (a b : String) :
    manualCreationInstructions a b ≠ "" := by
  intro h
  have h2 := congrArg String.length h
  simp only [manualCreationInstructions, String.length_append] at h2
  have hz : ("" : String).length = 0 := by decide
  have hpos : 0 < ("2. Create a new album named: " : String).length := by decide
  omega

theorem locator_no_reloc (gw : Gateway) (u d : String) (t : Nat) :
    (((findOrCreateReviewAlbum gw u d t).2).countP (fun c => isRelocationCall c)) = 0 :=
  locator_countP_zero gw u d t _ (fun _ => rfl) (fun _ _ => rfl)

/-- C9: when the review album can be neither found nor created automatically
(the locator falls back to its manual dict), the whole batch is refused up
front: the result is the manual-creation refusal carrying the locator's
non-empty instructions and a suggested album name containing the current date
stamp, and no relocation call (collect, move or delete) is issued for any
photo of any group. -/
theorem c9_refuses_batch_with_instructions (gw : Gateway)
    (groups : List (List DuplicatePhoto)) (u d : String) (t : Nat)
    (n i un : String)
    (h : (findOrCreateReviewAlbum gw u d t).1 = some (AlbumLookup.manual n i un)) :
    (processDuplicatesForReview gw groups u d t).1 =
      ProcessResult.manualNeeded "Manual album creation required" i n un ∧
    i ≠ "" ∧ (∃ pre suf, n = pre ++ d ++ suf) ∧
    (((processDuplicatesForReview gw groups u d t).2).countP
      (fun c => isRelocationCall c)) = 0 := by
  obtain ⟨hn, hun, hi⟩ := locator_manual_canonical gw u d t n i un h
  refine ⟨?_, ?_, ?_, ?_⟩
  · simp [processDuplicatesForReview, M.bind_apply, M.pure_apply, h]
  · rw [hi]
    exact manualCreationInstructions_ne_empty _ _
  · exact ⟨"SmugDups Review ", "", by rw [hn]; simp⟩
  · simp only [processDuplicatesForReview, M.bind_apply, M.pure_apply, h]
    simp [List.countP_append, locator_no_reloc gw u d t]

/-- Witness for C9: with `gwNoAlbum` (no existing album, failing creation)
the locator yields the manual fallback and the refusal theorem applies. -/
theorem c9_witness :
    (processDuplicatesForReview gwNoAlbum [] "user" "20250101" 0).1 =
      ProcessResult.manualNeeded "Manual album creation required"
        (manualCreationInstructions "SmugDups Review 20250101"
          "SmugDups-review-20250101")
        "SmugDups Review 20250101" "SmugDups-review-20250101" ∧
    (manualCreationInstructions "SmugDups Review 20250101"
      "SmugDups-review-20250101") ≠ "" ∧
    (∃ pre suf, "SmugDups Review 20250101" = pre ++ "20250101" ++ suf) ∧
    (((processDuplicatesForReview gwNoAlbum [] "user" "20250101" 0).2).countP
      (fun c => isRelocationCall c)) = 0 :=
  c9_refuses_batch_with_instructions gwNoAlbum [] "user" "20250101" 0
    "SmugDups Review 20250101"
    (manualCreationInstructions "SmugDups Review 20250101" "SmugDups-review-20250101")
    "SmugDups-review-20250101" (by rfl)

/-- C4: with exactly one member selected to keep, the widget's batch is the
non-kept members in the group's stored order, and the engine's summary
records outcome entries exactly for those photos (with nonempty ids), in that
order — the kept member receives no outcome entry. -/
theorem c4_only_non_kept_relocated (gw : Gateway) (dups : List DuplicatePhoto)
    (u d : String) (t : Nat) (album : AlbumLookup)
    (hkeep : (dups.filter (fun p => p.keep)).length = 1)
    (hra : (findOrCreateReviewAlbum gw u d t).1 = some album)
    (husable : album.isUsable = true) :
    photosToMove dups = dups.filter (fun p => !p.keep) ∧
    ∃ s, (processDuplicatesForReview gw [photosToMove dups] u d t).1 =
        ProcessResult.done s ∧
      s.group_results.map (fun g => g.image_results.map
        (fun e => (e.image_id, e.filename, e.source_album))) =
        [((dups.filter (fun p => !p.keep)).filter (fun p => p.image_id != "")).map
          (fun p => (p.image_id, p.filename, p.album_name))] := by
  have hmove : photosToMove dups = dups.filter (fun p => !p.keep) := by
    simp [photosToMove, hkeep]
  refine ⟨hmove, ?_⟩
  obtain ⟨s, hdone, _, _, _, _, _, hentries⟩ :=
    process_done_spec gw [photosToMove dups] u d t album hra husable
  refine ⟨s, hdone, ?_⟩
  rw [hentries, hmove]
  simp

/-- Photo fixtures for the C4 scenario: a group of three duplicates with
`keep` set on the second. -/
def photoC4_1 : DuplicatePhoto :=
  { image_id := "P1", filename := "photo1.jpg", album_name := "A",
    album_id := "AID", md5_hash := "h", url := "u", size := 0,
    date_uploaded := none }

/-- Second member of the C4 group (the kept one). -/
def photoC4_2 : DuplicatePhoto :=
  { image_id := "P2", filename := "photo2.jpg", album_name := "A",
    album_id := "AID", md5_hash := "h", url := "u", size := 0,
    date_uploaded := none, keep := true }

/-- Third member of the C4 group. -/
def photoC4_3 : DuplicatePhoto :=
  { image_id := "P3", filename := "photo3.jpg", album_name := "A",
    album_id := "AID", md5_hash := "h", url := "u", size := 0,
    date_uploaded := none }

/-- Witness for C4: three photos, `keep` on the second; on `gwHappy` the
batch relocates photos 1 and 3, in order, with entries for exactly those. -/
theorem c4_witness :
    photosToMove [photoC4_1, photoC4_2, photoC4_3] =
      List.filter (fun p => !p.keep) [photoC4_1, photoC4_2, photoC4_3] ∧
    ∃ s, (processDuplicatesForReview gwHappy
        [photosToMove [photoC4_1, photoC4_2, photoC4_3]] "user" "20250101" 0).1 =
        ProcessResult.done s ∧
      s.group_results.map (fun g => g.image_results.map
        (fun e => (e.image_id, e.filename, e.source_album))) =
        [((List.filter (fun p => !p.keep) [photoC4_1, photoC4_2, photoC4_3]).filter
            (fun p => p.image_id != "")).map
          (fun p => (p.image_id, p.filename, p.album_name))] :=
  c4_only_non_kept_relocated gwHappy [photoC4_1, photoC4_2, photoC4_3]
    "user" "20250101" 0
    (AlbumLookup.created "REV1" "SmugDups Review 20250101" "https://rev.example"
      "SmugDups-review-20250101")
    (by rfl) (by rfl) (by rfl)

/-- A malformed record: its `image_id` is empty. -/
def photoNoId : DuplicatePhoto :=
  { image_id := "", filename := "orphan.jpg", album_name := "A",
    album_id := "AID", md5_hash := "h", url := "u", size := 0,
    date_uploaded := none }

/-- Counterexample for C8: a photo with an empty `image_id` is counted as a
failure (no remote call is made for it), but it receives NO per-photo outcome
entry — the group's `image_results` list stays empty, so "yields a failure
outcome for that photo" is false if an outcome is the recorded result entry. -/
theorem c8_counterexample :
    ∃ s, (processDuplicatesForReview gwHappy [[photoNoId]] "user" "20250101" 0).1 =
        ProcessResult.done s ∧
      s.failed_copies = 1 ∧ s.successful_copies = 0 ∧ s.total_images = 1 ∧
      s.group_results.map (fun g => g.image_results) = [[]] :=
  ⟨_, rfl, rfl, rfl, rfl, rfl⟩

/-- C8 (amended): no error aborts the batch — given a usable review album the
batch always completes into a summary whose counts satisfy
`successful + failed = total` (photos are counted exactly once each) and whose
rate is `successful/total` in percent (`0` for an empty batch); a gateway
exception during a photo's copy is caught and converted into a failure result
carrying the error text; a photo with a missing/empty `image_id` is counted
failed without any remote call, though it yields no per-photo result entry. -/
theorem c8_amended_error_containment (gw : Gateway)
    (groups : List (List DuplicatePhoto)) (u d : String) (t : Nat)
    (album : AlbumLookup)
    (hra : (findOrCreateReviewAlbum gw u d t).1 = some album)
    (husable : album.isUsable = true) :
    (∃ s, (processDuplicatesForReview gw groups u d t).1 = ProcessResult.done s ∧
      s.successful_copies + s.failed_copies = s.total_images ∧
      s.total_images = (groups.map List.length).sum ∧
      s.success_rate = (if 0 < s.total_images then
        ((s.successful_copies : ℚ) / (s.total_images : ℚ)) * 100 else 0)) ∧
    (∀ imageId key t' e, gw.getImageDetails t' imageId = Except.error e →
      (copyImageToAlbum gw imageId key t').1 =
        (false, "Copy failed with exception: " ++ e)) ∧
    (∀ key p t', p.image_id = "" →
      processGroupPhotos gw key [p] t' = ((0, 1, []), [])) := by
  refine ⟨?_, ?_, ?_⟩
  · obtain ⟨s, hdone, _, _, hsum, htot, hrate, _⟩ :=
      process_done_spec gw groups u d t album hra husable
    exact ⟨s, hdone, hsum, htot, hrate⟩
  · intro imageId key t' e hexc
    simp [copyImageToAlbum, M.bind_apply, M.pure_apply, callGetImageDetails, hexc]
  · intro key p t' hid
    exact processGroupPhotos_empty_id gw key p t' hid

/-- Witness for C8 (amended): on `gwHappy` with one group containing the
empty-id photo, the batch completes with the stated count relations. -/
theorem c8_witness :
    (∃ s, (processDuplicatesForReview gwHappy [[photoNoId]] "user" "20250101" 0).1 =
        ProcessResult.done s ∧
      s.successful_copies + s.failed_copies = s.total_images ∧
      s.total_images = ([[photoNoId]].map List.length).sum ∧
      s.success_rate = (if 0 < s.total_images then
        ((s.successful_copies : ℚ) / (s.total_images : ℚ)) * 100 else 0)) ∧
    (∀ imageId key t' e, gwHappy.getImageDetails t' imageId = Except.error e →
      (copyImageToAlbum gwHappy imageId key t').1 =
        (false, "Copy failed with exception: " ++ e)) ∧
    (∀ key p t', p.image_id = "" →
      processGroupPhotos gwHappy key [p] t' = ((0, 1, []), [])) :=
  c8_amended_error_containment gwHappy [[photoNoId]] "user" "20250101" 0
    (AlbumLookup.created "REV1" "SmugDups Review 20250101" "https://rev.example"
      "SmugDups-review-20250101")
    (by rfl) (by rfl)

/-- Scenario fixture: 6 MiB photo, hash "abc", no other metadata. -/
def photoA6 : DuplicatePhoto :=
  { image_id := "A", filename := "a.jpg", album_name := "Al", album_id := "AID",
    md5_hash := "abc", url := "", size := 6 * 1024 * 1024, date_uploaded := none }

/-- Scenario fixture: 2 MiB photo, hash "abc", no other metadata. -/
def photoB2 : DuplicatePhoto :=
  { image_id := "B", filename := "b.jpg", album_name := "Al", album_id := "AID",
    md5_hash := "abc", url := "", size := 2 * 1024 * 1024, date_uploaded := none }

/-- C6: on a nonempty group, default selection marks exactly one member
`keep = true`; the kept member attains the maximal `(quality score, byte size)`
key (maximum score, ties broken by larger size); the selection is repeatable
(re-running it on its own output changes nothing); and in the concrete
two-photo scenario (shared hash, 6 MiB vs 2 MiB, no other metadata) the scores
are 3 and 2 and the 6 MiB photo is kept. -/
theorem c6_default_selection_marks_best (l : List DuplicatePhoto)
    (hne : l ≠ []) :
    ((applyDefaultSelection l).countP (fun p => p.keep) = 1) ∧
    (∀ p ∈ (applyDefaultSelection l).filter (fun p => p.keep),
      ∀ q ∈ l, keyLe (scoreKey q) (scoreKey p)) ∧
    applyDefaultSelection (applyDefaultSelection l) = applyDefaultSelection l ∧
    (photoA6.getQualityScore = 3 ∧ photoB2.getQualityScore = 2 ∧
      (applyDefaultSelection [photoA6, photoB2]).map (fun p => p.keep) =
        [true, false]) :=
  ⟨sel_keep_count l hne, fun p hp => sel_keep_max l p hp, sel_idem l,
    by decide, by decide, by decide⟩

/-- Witness for C6 at the concrete two-photo scenario group. -/
theorem c6_witness :
    [photoA6, photoB2] ≠ [] ∧
    (((applyDefaultSelection [photoA6, photoB2]).countP (fun p => p.keep) = 1) ∧
     (∀ p ∈ (applyDefaultSelection [photoA6, photoB2]).filter (fun p => p.keep),
        ∀ q ∈ [photoA6, photoB2], keyLe (scoreKey q) (scoreKey p)) ∧
     applyDefaultSelection (applyDefaultSelection [photoA6, photoB2]) =
        applyDefaultSelection [photoA6, photoB2] ∧
     (photoA6.getQualityScore = 3 ∧ photoB2.getQualityScore = 2 ∧
      (applyDefaultSelection [photoA6, photoB2]).map (fun p => p.keep) =
        [true, false])) :=
  ⟨List.cons_ne_nil _ _,
    c6_default_selection_marks_best [photoA6, photoB2] (List.cons_ne_nil _ _)⟩

theorem dupHashes_nodup (imgs : List ImageData) : (dupHashes imgs).Nodup :=
  (hashOrder_nodup imgs).filter _

theorem mem_dupHashes (imgs : List ImageData) (h : String) :
    h ∈ dupHashes imgs ↔
      h ≠ "" ∧ 1 < (imgs.filter (fun i => i.md5_hash == h)).length := by
  constructor
  · intro hm
    obtain ⟨hho, hcond⟩ := List.mem_filter.mp hm
    exact ⟨hashOrder_ne_empty imgs h hho, by simpa using hcond⟩
  · rintro ⟨hne, hlen⟩
    refine List.mem_filter.mpr ⟨?_, by simpa using hlen⟩
    rcases hf : imgs.filter (fun i => i.md5_hash == h) with _ | ⟨a, rest⟩
    · rw [hf] at hlen; simp at hlen
    · have ha : a ∈ imgs.filter (fun i => i.md5_hash == h) := by
        rw [hf]; exact List.mem_cons_self _ _
      obtain ⟨hai, hah⟩ := List.mem_filter.mp ha
      have hah2 : a.md5_hash = h := by simpa using hah
      have h2 := hashOrder_complete imgs a hai (by rw [hah2]; exact hne)
      rw [hah2] at h2
      exact h2

theorem sel_all_hash (l : List ImageData) (h : String) :
    ((applyDefaultSelection (l.map mkDuplicatePhoto)).all
        (fun p => p.md5_hash == h)) =
      l.all (fun i => i.md5_hash == h) := by
  have hm : (applyDefaultSelection (l.map mkDuplicatePhoto)).map
        (fun p => p.md5_hash) = l.map (fun i => i.md5_hash) := by
    rw [sel_map_proj (fun p => p.md5_hash) (fun _ _ => rfl), List.map_map]
    rfl
  have key : ∀ (m1 : List DuplicatePhoto) (m2 : List ImageData),
      m1.map (fun p => p.md5_hash) = m2.map (fun i => i.md5_hash) →
      m1.all (fun p => p.md5_hash == h) = m2.all (fun i => i.md5_hash == h) := by
    intro m1
    induction m1 with
    | nil =>
      intro m2 hmm
      cases m2 with
      | nil => rfl
      | cons b t2 => simp at hmm
    | cons a t ih =>
      intro m2 hmm
      cases m2 with
      | nil => simp at hmm
      | cons b t2 =>
        simp only [List.map_cons, List.cons.injEq] at hmm
        simp only [List.all_cons, hmm.1, ih t2 hmm.2]
  exact key _ l hm

theorem filter_all_hash (imgs : List ImageData) (h h' : String)
    (hne : imgs.filter (fun i => i.md5_hash == h') ≠ []) :
    ((imgs.filter (fun i => i.md5_hash == h')).all
        (fun i => i.md5_hash == h)) = (h' == h) := by
  rcases hl : imgs.filter (fun i => i.md5_hash == h') with _ | ⟨a, rest⟩
  · exact absurd hl hne
  · have ha : a ∈ imgs.filter (fun i => i.md5_hash == h') := by
      rw [hl]; exact List.mem_cons_self _ _
    have ha2 : a.md5_hash = h' := by simpa using (List.mem_filter.mp ha).2
    by_cases hh : h' = h
    · rw [show (h' == h) = true from by simp [hh]]
      refine List.all_eq_true.mpr ?_
      intro x hx
      have hx2 : x.md5_hash = h' := by simpa using (List.mem_filter.mp hx).2
      simp [hx2, hh]
    · rw [show (h' == h) = false from by simp [hh]]
      refine List.all_eq_false.mpr ⟨a, ha, ?_⟩
      simp [ha2, hh]

theorem dup_group_count (imgs : List ImageData) (h : String) :
    (findDuplicateGroups imgs).countP
        (fun g => g.all (fun p => p.md5_hash == h)) =
      if h ∈ dupHashes imgs then 1 else 0 := by
  rw [findDuplicateGroups_eq, List.countP_map]
  have hcg : ∀ x ∈ dupHashes imgs,
      ((applyDefaultSelection ((imgs.filter (fun i => i.md5_hash == x)).map
        mkDuplicatePhoto)).all (fun p => p.md5_hash == h) = true ↔
        (x == h) = true) := by
    intro x hx
    obtain ⟨_, hlen⟩ := (mem_dupHashes imgs x).mp hx
    have hne0 : imgs.filter (fun i => i.md5_hash == x) ≠ [] := by
      intro hnil
      rw [hnil] at hlen
      simp at hlen
    rw [sel_all_hash, filter_all_hash imgs h x hne0]
  simp only [Function.comp_def]
  rw [List.countP_congr hcg]
  by_cases hmem : h ∈ dupHashes imgs
  · rw [if_pos hmem]
    exact List.count_eq_one_of_mem (dupHashes_nodup imgs) hmem
  · rw [if_neg hmem]
    exact List.count_eq_zero.mpr hmem

/-- C7: duplicate grouping emits only groups of size ≥ 2; every group carries a
single nonempty hash shared by all its members and lists exactly the input's
photos of that hash in input order; and for each hash there is exactly one
group when two or more photos share it (nonempty hash) and none otherwise —
in particular empty-hash photos appear in no group.  (The function is a pure
Lean function of the input list, so determinism is inherent; it is total, so
no input produces an error.) -/
theorem c7_grouping_one_group_per_dup_hash (imgs : List ImageData) :
    (∀ g ∈ findDuplicateGroups imgs, 2 ≤ g.length) ∧
    (∀ g ∈ findDuplicateGroups imgs, ∃ h, h ≠ "" ∧
      (∀ p ∈ g, p.md5_hash = h) ∧
      g.map (fun p => p.image_id) =
        (imgs.filter (fun i => i.md5_hash == h)).map (fun i => i.image_id)) ∧
    (∀ h, (findDuplicateGroups imgs).countP
        (fun g => g.all (fun p => p.md5_hash == h)) =
      if h ≠ "" ∧ 1 < (imgs.filter (fun i => i.md5_hash == h)).length
      then 1 else 0) := by
  refine ⟨?_, ?_, ?_⟩
  · intro g hg
    rw [findDuplicateGroups_eq] at hg
    obtain ⟨h, hh, rfl⟩ := List.mem_map.mp hg
    obtain ⟨_, hlen⟩ := (mem_dupHashes imgs h).mp hh
    rw [sel_length, List.length_map]
    omega
  · intro g hg
    rw [findDuplicateGroups_eq] at hg
    obtain ⟨h, hh, rfl⟩ := List.mem_map.mp hg
    obtain ⟨hne, _⟩ := (mem_dupHashes imgs h).mp hh
    refine ⟨h, hne, ?_, ?_⟩
    · intro p hp
      have hmap : (applyDefaultSelection
            ((imgs.filter (fun i => i.md5_hash == h)).map mkDuplicatePhoto)).map
            (fun p => p.md5_hash) =
          (imgs.filter (fun i => i.md5_hash == h)).map (fun i => i.md5_hash) := by
        rw [sel_map_proj (fun p => p.md5_hash) (fun _ _ => rfl), List.map_map]
        rfl
      have hpm := List.mem_map_of_mem (fun p => p.md5_hash) hp
      rw [hmap] at hpm
      obtain ⟨i, hi, hieq⟩ := List.mem_map.mp hpm
      have hih : i.md5_hash = h := by simpa using (List.mem_filter.mp hi).2
      exact (show p.md5_hash = i.md5_hash from hieq.symm).trans hih
    · rw [sel_map_proj (fun p => p.image_id) (fun _ _ => rfl), List.map_map]
      rfl
  · intro h
    rw [dup_group_count]
    by_cases hm : h ∈ dupHashes imgs
    · rw [if_pos hm, if_pos ((mem_dupHashes imgs h).mp hm)]
    · rw [if_neg hm, if_neg (fun hc => hm ((mem_dupHashes imgs h).mpr hc))]

/-- Grouping fixtures: two photos sharing hash "abc" and one with no hash. -/
def imgA6 : ImageData :=
  { image_id := "A", filename := "a.jpg", album_name := "Al", album_id := "AID",
    md5_hash := "abc", url := "", size := 6 * 1024 * 1024, date_uploaded := none }

def imgB2 : ImageData :=
  { image_id := "B", filename := "b.jpg", album_name := "Al", album_id := "AID",
    md5_hash := "abc", url := "", size := 2 * 1024 * 1024, date_uploaded := none }

def imgNoHash : ImageData :=
  { image_id := "C", filename := "c.jpg", album_name := "Al", album_id := "AID",
    md5_hash := "", url := "", size := 10, date_uploaded := none }

/-- Witness for C7 at a concrete input: the duplicated hash "abc" yields one
group of size ≥ 2, and the empty hash yields none. -/
theorem c7_witness :
    (2 ≤ (applyDefaultSelection
        [mkDuplicatePhoto imgA6, mkDuplicatePhoto imgB2]).length) ∧
    ((findDuplicateGroups [imgA6, imgB2, imgNoHash]).countP
        (fun g => g.all (fun p => p.md5_hash == "abc")) = 1) ∧
    ((findDuplicateGroups [imgA6, imgB2, imgNoHash]).countP
        (fun g => g.all (fun p => p.md5_hash == "")) = 0) := by
  obtain ⟨hlen, _, hcount⟩ :=
    c7_grouping_one_group_per_dup_hash [imgA6, imgB2, imgNoHash]
  have hG : findDuplicateGroups [imgA6, imgB2, imgNoHash] =
      [applyDefaultSelection [mkDuplicatePhoto imgA6, mkDuplicatePhoto imgB2]] :=
    rfl
  refine ⟨?_, ?_, ?_⟩
  · exact hlen _ (by rw [hG]; exact List.mem_singleton_self _)
  · rw [hcount "abc", if_pos (by decide)]
  · rw [hcount "", if_neg (by decide)]

end SmugDups
